import Mathlib

/-!
# A verification development of the x0 FlowLang toolchain

Shallow embedding of parts of the x0 repository:

* the stack-machine target code generator
  (`src/xzero-flow/TargetCodeGenerator.cc` / `.h`),
* the native-callback registry and its IR-time verifier driver
  (`src/xzero-flow/vm/Runtime.cc`, `lib/flow/vm/NativeCallback.cpp`),
* the entry-point context validator (`src/x0d/Daemon.cc`),
* the `sys.env` IR-time verifiers (`src/x0d/modules/core.cc`),
* the flowtest harness (`src/xzero-flow/flowtest.cc`).

Pure data is embedded as Lean structures, stateful code as explicit state
passing, fallible code (assertion failures, `logFatal`) as `Option`.
Definitions whose C++ source is not part of this tree (headers such as
`vm/Instruction.h`, `vm/ConstantPool.h`) are modelled from the spec and say
so in their doc comment.
-/

namespace X0

/-- `FlowType` (FlowType.h): the closed set of value kinds, plus `Void`. -/
inductive FlowType
  | Void | Boolean | Number | String | RegExp | IPAddress | Cidr | Handler
  | IntArray | StringArray | IPAddrArray | CidrArray
deriving Repr, DecidableEq

/-- Bytecode opcodes emitted by `TargetCodeGenerator.cc` (`vm::Opcode`). -/
inductive Opcode
  | NOP
  | ALLOCA | STORE | LOAD | DISCARD
  | ILOAD | NLOAD | SLOAD | PLOAD | CLOAD
  | ITLOAD | STLOAD | PTLOAD | CTLOAD
  | JMP | JZ | JN | EXIT
  | CALL | HANDLER
  | SMATCHEQ | SMATCHBEG | SMATCHEND | SMATCHR
  | NNEG | NNOT
  | NADD | NSUB | NMUL | NDIV | NREM | NPOW
  | NAND | NOR | NXOR | NSHL | NSHR
  | NCMPEQ | NCMPNE | NCMPLE | NCMPGE | NCMPLT | NCMPGT
  | BNOT | BAND | BOR | BXOR
  | SLEN | SISEMPTY | SADD | SSUBSTR
  | SCMPEQ | SCMPNE | SCMPLE | SCMPGE | SCMPLT | SCMPGT
  | SREGMATCH | SCMPBEG | SCMPEND | SCONTAINS
  | PCMPEQ | PCMPNE | PINCIDR
  | N2S | P2S | C2S | R2S | S2N
deriving Repr, DecidableEq

/-- Modelled from the spec: a bytecode `Instruction` is a single 64-bit word
holding an opcode in the low byte and up to three operands in the remaining
bits (`vm/Instruction.h` is not part of this tree); we model the word as a
record of the opcode and three 16-bit operand fields. -/
structure Instruction where
  opcode : Opcode
  op1 : Nat
  op2 : Nat
  op3 : Nat
deriving Repr, DecidableEq

/-- Modelled from the spec: the largest value an (unsigned 16-bit) bytecode
operand field can hold, `std::numeric_limits<Operand>::max()`. -/
def operandMax : Nat := 65535

/-- The C++ conversion of a 64-bit signed value to the unsigned operand
field (truncation modulo 2^16). -/
def toOperand (n : Int) : Nat := (n % 65536).toNat

/-- `vm::makeInstruction`: packs an opcode and up to three operands into one
instruction word; each operand is truncated to the operand field width. -/
def makeInstruction (opc : Opcode) (a b c : Nat) : Instruction :=
  ⟨opc, a % 65536, b % 65536, c % 65536⟩

/-- `vm::Signature`: name, return type and ordered parameter types.
`Runtime::find` compares signatures by their `to_s()` rendering, which
determines exactly these three components, so signature equality is
structural. -/
structure Signature where
  name : String
  returnType : FlowType
  params : List FlowType
deriving Repr, DecidableEq

/-- IR values as the code generator distinguishes them via `dynamic_cast` in
`emitLoad`: the typed constant leaves (`ConstantInt`, `ConstantBoolean`,
`ConstantString`, `ConstantIP`, `ConstantCidr`, `ConstantRegExp`,
`ConstantArray` of each element kind) and non-constant SSA values
(instruction results, identified here by an id, pointer identity in C++). -/
inductive Value
  | constInt (n : Int)
  | constBool (b : Bool)
  | constString (s : String)
  | constIP (ip : String)
  | constCidr (c : String)
  | constRegExp (re : String)
  | constIntArray (ns : List Int)
  | constStringArray (ss : List String)
  | constIPArray (ips : List String)
  | constCidrArray (cs : List String)
  | ssa (id : Nat) (ty : FlowType)
deriving Repr, DecidableEq

/-- `Value::type()` as the code generator consults it (`CastInstr` lowering). -/
def Value.type : Value → FlowType
  | .constInt _ => .Number
  | .constBool _ => .Boolean
  | .constString _ => .String
  | .constIP _ => .IPAddress
  | .constCidr _ => .Cidr
  | .constRegExp _ => .RegExp
  | .constIntArray _ => .IntArray
  | .constStringArray _ => .StringArray
  | .constIPArray _ => .IPAddrArray
  | .constCidrArray _ => .CidrArray
  | .ssa _ ty => ty

/-- `MatchClass` (Same/Head/Tail/RegExp). -/
inductive MatchClass
  | Same | Head | Tail | RegExp
deriving Repr, DecidableEq

/-- One case entry of a `MatchDef`: constant-pool index of the label value
and the branch target program counter (filled in by back-patching). -/
structure MatchCaseDef where
  label : Nat
  pc : Nat
deriving Repr, DecidableEq

/-- `vm::MatchDef`: owning handler id, match class, per-case entries and the
else program counter. -/
structure MatchDef where
  handlerId : Nat
  op : MatchClass
  cases : List MatchCaseDef
  elsePC : Nat
deriving Repr, DecidableEq

/-- Find-or-append into a deduplicated table, returning the index. -/
def indexOrAdd {α : Type} [DecidableEq α] (xs : List α) (x : α) : Nat × List α :=
  match xs.findIdx? (fun y => y = x) with
  | some i => (i, xs)
  | none => (xs.length, xs ++ [x])

/-- Modelled from the spec: the `vm::ConstantPool` holds deduplicated tables
of numbers, strings, regexps, IP addresses, cidrs, typed arrays, match
definitions, the handler table (name and code per handler) and the
native-reference tables (`vm/ConstantPool.h` is not part of this tree).
Handlers are keyed by name, everything else by value. -/
structure ConstantPool where
  numbers : List Int
  strings : List String
  ipaddrs : List String
  cidrs : List String
  regularExpressions : List String
  intArrays : List (List Int)
  stringArrays : List (List String)
  ipaddrArrays : List (List String)
  cidrArrays : List (List String)
  matchDefs : List MatchDef
  handlers : List (String × List Instruction)
  nativeFunctions : List Signature
  nativeHandlers : List Signature
deriving Repr, DecidableEq

def ConstantPool.empty : ConstantPool :=
  ⟨[], [], [], [], [], [], [], [], [], [], [], [], []⟩

def ConstantPool.makeInteger (cp : ConstantPool) (n : Int) : Nat × ConstantPool :=
  ((indexOrAdd cp.numbers n).1, {cp with numbers := (indexOrAdd cp.numbers n).2})

def ConstantPool.makeString (cp : ConstantPool) (s : String) : Nat × ConstantPool :=
  ((indexOrAdd cp.strings s).1, {cp with strings := (indexOrAdd cp.strings s).2})

def ConstantPool.makeIPAddress (cp : ConstantPool) (s : String) : Nat × ConstantPool :=
  ((indexOrAdd cp.ipaddrs s).1, {cp with ipaddrs := (indexOrAdd cp.ipaddrs s).2})

def ConstantPool.makeCidr (cp : ConstantPool) (s : String) : Nat × ConstantPool :=
  ((indexOrAdd cp.cidrs s).1, {cp with cidrs := (indexOrAdd cp.cidrs s).2})

def ConstantPool.makeRegExp (cp : ConstantPool) (s : String) : Nat × ConstantPool :=
  ((indexOrAdd cp.regularExpressions s).1,
   {cp with regularExpressions := (indexOrAdd cp.regularExpressions s).2})

def ConstantPool.makeIntegerArray (cp : ConstantPool) (v : List Int) : Nat × ConstantPool :=
  ((indexOrAdd cp.intArrays v).1, {cp with intArrays := (indexOrAdd cp.intArrays v).2})

def ConstantPool.makeStringArray (cp : ConstantPool) (v : List String) : Nat × ConstantPool :=
  ((indexOrAdd cp.stringArrays v).1,
   {cp with stringArrays := (indexOrAdd cp.stringArrays v).2})

def ConstantPool.makeIPaddrArray (cp : ConstantPool) (v : List String) : Nat × ConstantPool :=
  ((indexOrAdd cp.ipaddrArrays v).1,
   {cp with ipaddrArrays := (indexOrAdd cp.ipaddrArrays v).2})

def ConstantPool.makeCidrArray (cp : ConstantPool) (v : List String) : Nat × ConstantPool :=
  ((indexOrAdd cp.cidrArrays v).1,
   {cp with cidrArrays := (indexOrAdd cp.cidrArrays v).2})

/-- `ConstantPool::makeMatchDef`: appends a fresh (default) match definition
and returns its id. -/
def ConstantPool.makeMatchDef (cp : ConstantPool) : Nat × ConstantPool :=
  (cp.matchDefs.length,
   {cp with matchDefs := cp.matchDefs ++ [⟨0, .Same, [], 0⟩]})

def ConstantPool.setMatchDef (cp : ConstantPool) (id : Nat) (d : MatchDef) : ConstantPool :=
  {cp with matchDefs := cp.matchDefs.set id d}

/-- `ConstantPool::makeHandler`: find-or-append by handler name; a freshly
declared handler starts with empty code. -/
def ConstantPool.makeHandler (cp : ConstantPool) (name : String) : Nat × ConstantPool :=
  match cp.handlers.findIdx? (fun h => h.1 = name) with
  | some i => (i, cp)
  | none => (cp.handlers.length, {cp with handlers := cp.handlers ++ [(name, [])]})

def ConstantPool.setHandlerCode (cp : ConstantPool) (id : Nat) (code : List Instruction) : ConstantPool :=
  match cp.handlers[id]? with
  | some h => {cp with handlers := cp.handlers.set id (h.1, code)}
  | none => cp

def ConstantPool.makeNativeFunction (cp : ConstantPool) (sig : Signature) : Nat × ConstantPool :=
  ((indexOrAdd cp.nativeFunctions sig).1,
   {cp with nativeFunctions := (indexOrAdd cp.nativeFunctions sig).2})

def ConstantPool.makeNativeHandler (cp : ConstantPool) (sig : Signature) : Nat × ConstantPool :=
  ((indexOrAdd cp.nativeHandlers sig).1,
   {cp with nativeHandlers := (indexOrAdd cp.nativeHandlers sig).2})

/-- Label of one `MatchInstr` case: a constant string or a constant regexp
(the only label types `TargetCodeGenerator::visit(MatchInstr&)` accepts). -/
inductive MatchLabel
  | str (s : String)
  | regex (s : String)
deriving Repr, DecidableEq

/-- The tag of a binary IR instruction.  `TargetCodeGenerator.cc` has one
`visit` overload per tag; all of them are the same two-operand
`emitBinary`/`emitBinaryAssoc` body differing only in the emitted opcode,
recorded in `binaryOpcode` below. -/
inductive BinaryOpK
  | iadd | isub | imul | idiv | irem | ipow
  | iand | ior | ixor | ishl | ishr
  | icmpeq | icmpne | icmple | icmpge | icmplt | icmpgt
  | band | bor | bxor
  | sadd | ssubstr
  | scmpeq | scmpne | scmple | scmpge | scmplt | scmpgt
  | scmpbeg | scmpend | sin
  | pcmpeq | pcmpne | pincidr
deriving Repr, DecidableEq

/-- The opcode each binary `visit` overload emits
(`TargetCodeGenerator.cc:542..696`), one line per overload.  Note
`visit(BOrInstr&)` (line 618) emits `Opcode::BAND`. -/
def binaryOpcode : BinaryOpK → Opcode
  | .iadd => .NADD
  | .isub => .NSUB
  | .imul => .NMUL
  | .idiv => .NDIV
  | .irem => .NREM
  | .ipow => .NPOW
  | .iand => .NAND
  | .ior => .NOR
  | .ixor => .NXOR
  | .ishl => .NSHL
  | .ishr => .NSHR
  | .icmpeq => .NCMPEQ
  | .icmpne => .NCMPNE
  | .icmple => .NCMPLE
  | .icmpge => .NCMPGE
  | .icmplt => .NCMPLT
  | .icmpgt => .NCMPGT
  | .band => .BAND
  | .bor => .BAND
  | .bxor => .BXOR
  | .sadd => .SADD
  | .ssubstr => .SSUBSTR
  | .scmpeq => .SCMPEQ
  | .scmpne => .SCMPNE
  | .scmple => .SCMPLE
  | .scmpge => .SCMPGE
  | .scmplt => .SCMPLT
  | .scmpgt => .SCMPGT
  | .scmpbeg => .SCMPBEG
  | .scmpend => .SCMPEND
  | .sin => .SCONTAINS
  | .pcmpeq => .PCMPEQ
  | .pcmpne => .PCMPNE
  | .pincidr => .PINCIDR

/-- The tag of a unary IR instruction. -/
inductive UnaryOpK
  | ineg | inot | bnot | slen | sisempty
deriving Repr, DecidableEq

/-- The opcode each unary `visit` overload emits. -/
def unaryOpcode : UnaryOpK → Opcode
  | .ineg => .NNEG
  | .inot => .NNOT
  | .bnot => .BNOT
  | .slen => .SLEN
  | .sisempty => .SISEMPTY

/-- IR instructions as the target code generator consumes them.  Each
non-void instruction carries its own SSA `Value` handle (`self`), which is
what `push(&instr)` pushes onto the symbolic stack in C++.  Basic blocks are
identified by `Nat` ids (pointer identity in C++). -/
inductive Instr
  | nop
  | alloca (self : Value)
  | store (var : Value) (source : Value) (sourceUses : Nat)
  | load (self : Value) (var : Value)
  | phi
  | call (self : Value) (callee : Signature) (args : List Value) (used : Bool)
  | handlerCall (callee : Signature) (args : List Value)
  | condBr (condition : Value) (trueBlock falseBlock : Nat)
  | br (targetBlock : Nat)
  | ret (imm : Int)
  | matchInstr (op : MatchClass) (condition : Value)
      (cases : List (MatchLabel × Nat)) (elseBlock : Option Nat)
  | cast (self : Value) (targetType : FlowType) (source : Value)
  | unary (self : Value) (op : UnaryOpK) (operand : Value)
  | binary (self : Value) (op : BinaryOpK) (lhs rhs : Value)
  | scmpre (self : Value) (lhs : Value) (re : String)
deriving Repr, DecidableEq

/-- A basic block: a name (pointer identity in C++) and its instructions. -/
structure BasicBlock where
  name : Nat
  instrs : List Instr
deriving Repr, DecidableEq

/-- An IR handler: a name and its ordered basic blocks (the first is entry). -/
structure IRHandler where
  name : String
  blocks : List BasicBlock
deriving Repr, DecidableEq

/-- A recorded forward-jump emission site (`ConditionalJump` /
`UnconditionalJump` in `TargetCodeGenerator.h`): the placeholder's pc, its
opcode, and the target basic block.  The C++ groups sites in a hash map
keyed by target block; we keep the flat list of (target, site) pairs, which
carries the same information. -/
structure JumpSite where
  target : Nat
  pc : Nat
  opcode : Opcode
deriving Repr, DecidableEq

/-- A recorded match-lowering site (`matchHints_`): the C++ stores the
`MatchInstr*` and re-reads its case target blocks and else block when
patching; we store those fields directly, with the match-definition id. -/
structure MatchHint where
  caseBlocks : List Nat
  elseB : Option Nat
  matchId : Nat
deriving Repr, DecidableEq

/-- The mutable state of `TargetCodeGenerator` while one handler is being
generated: the current handler id and name, the emitted code, the symbolic
stack (bottom of the stack first, as in `std::deque` with `push_back`), the
two jump worklists, the match hints, and the constant pool. -/
structure GenState where
  handlerId : Nat
  handlerName : String
  code : List Instruction
  stack : List Value
  condJumps : List JumpSite
  uncondJumps : List JumpSite
  matchHints : List MatchHint
  pool : ConstantPool
deriving Repr, DecidableEq

namespace GenState

/-- `TargetCodeGenerator::emitInstr`: append one instruction. -/
def emitInstr (i : Instruction) (st : GenState) : GenState :=
  {st with code := st.code ++ [i]}

/-- `getInstructionPointer()`: the pc of the next instruction. -/
def ip (st : GenState) : Nat := st.code.length

/-- `push`: push a value alias onto the symbolic stack. -/
def push (v : Value) (st : GenState) : GenState :=
  {st with stack := st.stack ++ [v]}

/-- `pop(count)`: popping more values than the stack holds is a fatal bug in
the C++ (`logFatal`), modelled as `none`. -/
def pop (count : Nat) (st : GenState) : Option GenState :=
  if count > st.stack.length then none
  else some {st with stack := st.stack.take (st.stack.length - count)}

/-- `changeStack(pops, pushValue)`. -/
def changeStack (pops : Nat) (pushValue : Option Value) (st : GenState) : Option GenState :=
  match (if pops > 0 then pop pops st else some st) with
  | none => none
  | some st1 =>
    match pushValue with
    | some v => some (push v st1)
    | none => some st1

/-- `getStackPointer`: the first (bottom-most) stack slot holding `value`;
`none` when the value is not on the stack (C++ returns `(StackPointer)-1`). -/
def getStackPointer (v : Value) (st : GenState) : Option Nat :=
  st.stack.findIdx? (fun w => w = v)

/-- The `if (argc) pop(argc);` idiom of `visit(CallInstr&)` /
`visit(HandlerCallInstr&)`. -/
def popIf (count : Nat) (st : GenState) : Option GenState :=
  if count ≠ 0 then pop count st else some st

/-- `emitCondJump(opcode, bb)`: emit a placeholder carrying just the opcode,
pop the condition, and record the site for back-patching. -/
def emitCondJump (opc : Opcode) (bb : Nat) (st : GenState) : Option GenState := do
  let pc := st.ip
  let st1 := emitInstr (makeInstruction opc 0 0 0) st
  let st2 ← changeStack 1 none st1
  some {st2 with condJumps := st2.condJumps ++ [⟨bb, pc, opc⟩]}

/-- `emitJump(bb)`: emit a `JMP` placeholder and record the site. -/
def emitJump (bb : Nat) (st : GenState) : GenState :=
  let pc := st.ip
  let st1 := emitInstr (makeInstruction .JMP 0 0 0) st
  {st1 with uncondJumps := st1.uncondJumps ++ [⟨bb, pc, .JMP⟩]}

/-- `TargetCodeGenerator::emitLoad(value)` (TargetCodeGenerator.cc:339):
materialize an operand on top of the VM stack.  Integer constants are
encoded inline via `ILOAD` when `number <= std::numeric_limits<Operand>::max()`
(a signed comparison: there is no lower-bound test), else via `NLOAD` and
the constant pool; other constant kinds load from their pool table; a
non-constant value must already be on the stack (assertion, modelled as
`none`) and is duplicated to the top with `LOAD`. -/
def emitLoad (v : Value) (st : GenState) : Option GenState :=
  match v with
  | .constInt n =>
    if n ≤ (operandMax : Int) then
      some (push v (emitInstr (makeInstruction .ILOAD (toOperand n) 0 0) st))
    else
      some (push v (emitInstr
        (makeInstruction .NLOAD (st.pool.makeInteger n).1 0 0)
        {st with pool := (st.pool.makeInteger n).2}))
  | .constBool b =>
    some (push v (emitInstr (makeInstruction .ILOAD (if b then 1 else 0) 0 0) st))
  | .constString s =>
    some (push v (emitInstr (makeInstruction .SLOAD (st.pool.makeString s).1 0 0)
      {st with pool := (st.pool.makeString s).2}))
  | .constIP ip =>
    some (push v (emitInstr (makeInstruction .PLOAD (st.pool.makeIPAddress ip).1 0 0)
      {st with pool := (st.pool.makeIPAddress ip).2}))
  | .constCidr c =>
    some (push v (emitInstr (makeInstruction .CLOAD (st.pool.makeCidr c).1 0 0)
      {st with pool := (st.pool.makeCidr c).2}))
  | .constIntArray ns =>
    some (push v (emitInstr (makeInstruction .ITLOAD (st.pool.makeIntegerArray ns).1 0 0)
      {st with pool := (st.pool.makeIntegerArray ns).2}))
  | .constStringArray ss =>
    some (push v (emitInstr (makeInstruction .STLOAD (st.pool.makeStringArray ss).1 0 0)
      {st with pool := (st.pool.makeStringArray ss).2}))
  | .constIPArray ips =>
    some (push v (emitInstr (makeInstruction .PTLOAD (st.pool.makeIPaddrArray ips).1 0 0)
      {st with pool := (st.pool.makeIPaddrArray ips).2}))
  | .constCidrArray cs =>
    some (push v (emitInstr (makeInstruction .CTLOAD (st.pool.makeCidrArray cs).1 0 0)
      {st with pool := (st.pool.makeCidrArray cs).2}))
  | .constRegExp re =>
    some (push v (emitInstr (makeInstruction .ILOAD (st.pool.makeRegExp re).1 0 0)
      {st with pool := (st.pool.makeRegExp re).2}))
  | .ssa _ _ =>
    match getStackPointer v st with
    | some si => some (push v (emitInstr (makeInstruction .LOAD si 0 0) st))
    | none => none

end GenState

/-- `BasicBlock::isAfter(other)` as used at the `BrInstr`/`CondBrInstr`
call sites.  Modelled from the spec and the call-site comment
("Do not emit the JMP if the target block is emitted right after this
block"): `isAfter order cur target` holds iff `target` directly follows
`cur` in the handler's basic-block order (`BasicBlock.cc` is not part of
this tree). -/
def isAfter (order : List Nat) (cur target : Nat) : Bool :=
  match order with
  | [] => false
  | [_] => false
  | a :: b :: rest =>
    if a = cur then b = target else isAfter (b :: rest) cur target

/-- The opcode per match class (`ops[]` in `visit(MatchInstr&)`). -/
def matchOpcode : MatchClass → Opcode
  | .Same => .SMATCHEQ
  | .Head => .SMATCHBEG
  | .Tail => .SMATCHEND
  | .RegExp => .SMATCHR

/-- The per-(target, source) conversion opcode table of `visit(CastInstr&)`. -/
def castOpcode : FlowType → FlowType → Option Opcode
  | .String, .Number => some .N2S
  | .String, .IPAddress => some .P2S
  | .String, .Cidr => some .C2S
  | .String, .RegExp => some .R2S
  | .Number, .String => some .S2N
  | _, _ => none

namespace GenState

/-- `emitLoad` over an argument list (the `for (i = 1; i <= argc; ++i)`
loops of `visit(CallInstr&)` / `visit(HandlerCallInstr&)`). -/
def emitLoadAll : List Value → GenState → Option GenState
  | [], st => some st
  | v :: rest, st => do
    let st1 ← emitLoad v st
    emitLoadAll rest st1

/-- `emitBinary` (and the textually identical `emitBinaryAssoc`): load both
operands, emit the opcode, pop 2 and push the instruction's value. -/
def emitBinary (self lhs rhs : Value) (opc : Opcode) (st : GenState) : Option GenState := do
  let st1 ← emitLoad lhs st
  let st2 ← emitLoad rhs st1
  let st3 := emitInstr (makeInstruction opc 0 0 0) st2
  changeStack 2 (some self) st3

/-- `emitUnary`: load the operand, emit the opcode, pop 1 and push the
instruction's value. -/
def emitUnary (self operand : Value) (opc : Opcode) (st : GenState) : Option GenState := do
  let st1 ← emitLoad operand st
  let st2 := emitInstr (makeInstruction opc 0 0 0) st1
  changeStack 1 (some self) st2

/-- Builds the case entries of a `MatchDef`: one `makeString`/`makeRegExp`
pool reference per case label (the loop in `visit(MatchInstr&)`); the pc of
each case starts at 0 and is back-patched later. -/
def buildMatchCases : List (MatchLabel × Nat) → ConstantPool →
    List MatchCaseDef × ConstantPool
  | [], cp => ([], cp)
  | (lbl, _) :: rest, cp =>
    let r :=
      match lbl with
      | .str s => cp.makeString s
      | .regex s => cp.makeRegExp s
    ((⟨r.1, 0⟩ : MatchCaseDef) :: (buildMatchCases rest r.2).1,
     (buildMatchCases rest r.2).2)

/-- One step of `InstructionVisitor` dispatch: the `visit` overloads of
`TargetCodeGenerator.cc`, one match arm per overload.  `order` is the
handler's basic-block order and `cur` the id of the block being emitted
(C++ reads both through `instr->getBasicBlock()`).  Assertion failures and
`logFatal` are `none`. -/
def visitInstr (order : List Nat) (cur : Nat) (i : Instr) (st : GenState) :
    Option GenState :=
  match i with
  | .nop => some (emitInstr (makeInstruction .NOP 0 0 0) st)
  | .alloca self =>
    some (push self (emitInstr (makeInstruction .ALLOCA 1 0 0) st))
  | .store var source sourceUses => do
    let di ← getStackPointer var st
    if sourceUses = 1 ∧ st.stack.getLast? = some source then
      changeStack 1 none (emitInstr (makeInstruction .STORE di 0 0) st)
    else do
      let st1 ← emitLoad source st
      changeStack 1 none (emitInstr (makeInstruction .STORE di 0 0) st1)
  | .load self var => do
    let si ← getStackPointer var st
    some (push self (emitInstr (makeInstruction .LOAD si 0 0) st))
  | .phi => none
  | .call self callee args used => do
    let st1 ← emitLoadAll args st
    let st2 := emitInstr
      (makeInstruction .CALL (st1.pool.makeNativeFunction callee).1 args.length
        (if callee.returnType ≠ FlowType.Void then 1 else 0))
      {st1 with pool := (st1.pool.makeNativeFunction callee).2}
    let st3 ← popIf args.length st2
    if callee.returnType ≠ FlowType.Void then
      let st4 := push self st3
      if used then some st4
      else pop 1 (emitInstr (makeInstruction .DISCARD 1 0 0) st4)
    else
      some st3
  | .handlerCall callee args => do
    let st1 ← emitLoadAll args st
    popIf args.length (emitInstr
      (makeInstruction .HANDLER (st1.pool.makeNativeHandler callee).1 args.length 0)
      {st1 with pool := (st1.pool.makeNativeHandler callee).2})
  | .condBr condition tb fb =>
    if isAfter order cur tb then do
      let st1 ← emitLoad condition st
      emitCondJump .JZ fb st1
    else if isAfter order cur fb then do
      let st1 ← emitLoad condition st
      emitCondJump .JN tb st1
    else do
      let st1 ← emitLoad condition st
      let st2 ← emitCondJump .JN tb st1
      some (emitJump fb st2)
  | .br targetBlock =>
    if isAfter order cur targetBlock then some st
    else some (emitJump targetBlock st)
  | .ret imm =>
    some (emitInstr (makeInstruction .EXIT (toOperand imm) 0 0) st)
  | .matchInstr op condition cases elseBlock => do
    let matchId := (st.pool.makeMatchDef).1
    let p1 := (st.pool.makeMatchDef).2
    let hid := (p1.makeHandler st.handlerName).1
    let p2 := (p1.makeHandler st.handlerName).2
    let st1 := {st with
      pool := p2,
      matchHints := st.matchHints
        ++ [(⟨cases.map Prod.snd, elseBlock, matchId⟩ : MatchHint)]}
    let st2 := {st1 with
      pool := (buildMatchCases cases st1.pool).2.setMatchDef matchId
        ⟨hid, op, (buildMatchCases cases st1.pool).1, 0⟩}
    let st3 ← emitLoad condition st2
    some (emitInstr (makeInstruction (matchOpcode op) matchId 0 0) st3)
  | .cast _self targetType source =>
    if targetType = source.type then emitLoad source st
    else
      match castOpcode targetType source.type with
      | some opc => do
        let st1 ← emitLoad source st
        some (emitInstr (makeInstruction opc 0 0 0) st1)
      | none => none
  | .unary self op operand => emitUnary self operand (unaryOpcode op) st
  | .binary self op lhs rhs => emitBinary self lhs rhs (binaryOpcode op) st
  | .scmpre _self lhs re => do
    let st1 ← emitLoad lhs st
    some (emitInstr (makeInstruction .SREGMATCH (st1.pool.makeRegExp re).1 0 0)
      {st1 with pool := (st1.pool.makeRegExp re).2})

/-- Emission of one basic block's instruction list. -/
def genInstrs (order : List Nat) (cur : Nat) : List Instr → GenState → Option GenState
  | [], st => some st
  | i :: rest, st => do
    let st1 ← visitInstr order cur i st
    genInstrs order cur rest st1

/-- The per-block loop of `TargetCodeGenerator::generate(IRHandler*)`:
record each block's entry pc (`basicBlockEntryPoints`), then emit its
instructions.  `entries` accumulates the (block, entry pc) map. -/
def emitBlocks (order : List Nat) :
    List BasicBlock → GenState → List (Nat × Nat) →
    Option (GenState × List (Nat × Nat))
  | [], st, entries => some (st, entries)
  | bb :: rest, st, entries => do
    let entries1 := entries ++ [(bb.name, st.ip)]
    let st1 ← genInstrs order bb.name bb.instrs st
    emitBlocks order rest st1 entries1

end GenState

/-- Lookup in `basicBlockEntryPoints`.  The C++ uses
`std::unordered_map::operator[]`, which yields a default-constructed `0`
for a block that was never emitted. -/
def entryLookup (entries : List (Nat × Nat)) (b : Nat) : Nat :=
  match entries.find? (fun e => e.1 = b) with
  | some e => e.2
  | none => 0

/-- The two "fixiate jump instructions" loops of `generate(IRHandler*)`
(TargetCodeGenerator.cc:133,142): each recorded site's placeholder is
overwritten with `makeInstruction(opcode, targetPC)`. -/
def patchJumpList (entries : List (Nat × Nat)) (sites : List JumpSite)
    (code : List Instruction) : List Instruction :=
  sites.foldl
    (fun c s => c.set s.pc (makeInstruction s.opcode (entryLookup entries s.target) 0 0))
    code

/-- The "fixiate match jump table" loop: each case pc of the hint's match
definition becomes the entry pc of the corresponding case target block, and
the else pc becomes the else block's entry pc when there is an else block. -/
def patchOneMatch (entries : List (Nat × Nat)) (p : ConstantPool)
    (h : MatchHint) : ConstantPool :=
  match p.matchDefs[h.matchId]? with
  | none => p
  | some d =>
    p.setMatchDef h.matchId
      {d with
        cases := d.cases.zipWith
          (fun c b => {c with pc := entryLookup entries b}) h.caseBlocks,
        elsePC := match h.elseB with
          | some b => entryLookup entries b
          | none => d.elsePC}

def patchMatches (entries : List (Nat × Nat)) (hints : List MatchHint)
    (p : ConstantPool) : ConstantPool :=
  hints.foldl (patchOneMatch entries) p

/-- The initial generator state for one handler
(`generate(IRHandler*)`, after `handlerId_ = cp_.makeHandler(handler)`). -/
def GenState.initial (hid : Nat) (hname : String) (cp : ConstantPool) : GenState :=
  ⟨hid, hname, [], [], [], [], [], cp⟩

/-- `TargetCodeGenerator::generate(IRHandler*)`: forward-declare the handler
in the pool, emit all basic blocks sequentially while recording entry
points, back-patch conditional jumps, unconditional jumps and match tables,
and store the code into the handler table. -/
def generateHandler (h : IRHandler) (cp : ConstantPool) : Option ConstantPool := do
  let hid := (cp.makeHandler h.name).1
  let order := h.blocks.map BasicBlock.name
  let r ← GenState.emitBlocks order h.blocks
    (GenState.initial hid h.name (cp.makeHandler h.name).2) []
  let code1 := patchJumpList r.2 r.1.condJumps r.1.code
  let code2 := patchJumpList r.2 r.1.uncondJumps code1
  let p1 := patchMatches r.2 r.1.matchHints r.1.pool
  some (p1.setHandlerCode hid code2)

/-- `TargetCodeGenerator::generate(IRProgram*)`: all handlers in order. -/
def generateProgram : List IRHandler → ConstantPool → Option ConstantPool
  | [], cp => some cp
  | h :: rest, cp => do
    let cp1 ← generateHandler h cp
    generateProgram rest cp1

/-! ## Native registry: `NativeCallback` and `Runtime` -/

/-- A registered native.  The two constructors below mirror
`lib/flow/vm/NativeCallback.cpp`.  The `verifier` is the optional IR-time
verifier; modelled from the spec (`NativeCallback.h` is not part of this
tree): it receives the call instruction and may reject it by returning
`false`; a callback without a verifier accepts every call, modelled as the
constantly-true function. -/
structure NativeCallback where
  isHandler : Bool
  signature : Signature
  verifier : Instr → Bool

/-- The handler-callback constructor (`NativeCallback.cpp:10`): marks the
callback as a handler and sets the signature's return type to `Boolean`. -/
def NativeCallback.mkHandler (name : String) : NativeCallback :=
  ⟨true, ⟨name, .Boolean, []⟩, fun _ => true⟩

/-- The function-callback constructor (`NativeCallback.cpp:21`): marks the
callback as a function and sets the supplied return type. -/
def NativeCallback.mkFunction (name : String) (returnType : FlowType) : NativeCallback :=
  ⟨false, ⟨name, returnType, []⟩, fun _ => true⟩

/-- `NativeCallback::verify(instr, builder)`: runs the verifier (modelled
from the spec; the `builder` argument only matters for mutation, which the
pure model does not track). -/
def NativeCallback.verify (cb : NativeCallback) (i : Instr) : Bool :=
  cb.verifier i

/-- `vm::Runtime`: the list of registered natives (`builtins_`). -/
structure Runtime where
  builtins : List NativeCallback

/-- `Runtime::registerHandler` (Runtime.cc:20): appends a handler callback
and returns (a reference to) it. -/
def Runtime.registerHandler (rt : Runtime) (name : String) : Runtime × NativeCallback :=
  let cb := NativeCallback.mkHandler name
  (⟨rt.builtins ++ [cb]⟩, cb)

/-- `Runtime::registerFunction` (Runtime.cc:25): appends a function callback
and returns (a reference to) it. -/
def Runtime.registerFunction (rt : Runtime) (name : String) (returnType : FlowType) :
    Runtime × NativeCallback :=
  let cb := NativeCallback.mkFunction name returnType
  (⟨rt.builtins ++ [cb]⟩, cb)

/-- `Runtime::find(signature)` (Runtime.cc:31): the first callback whose
signature renders to the same `to_s()` string; `to_s` determines name,
return type and parameter types, so this is structural signature equality. -/
def Runtime.find (rt : Runtime) (sig : Signature) : Option NativeCallback :=
  rt.builtins.find? (fun cb => cb.signature = sig)

/-- The callee signature of a call instruction, i.e. the `dynamic_cast`
dispatch in `Runtime::verify`: `CallInstr` and `HandlerCallInstr` carry a
callee, every other instruction does not. -/
def Instr.calleeSignature : Instr → Option Signature
  | .call _ callee _ _ => some callee
  | .handlerCall callee _ => some callee
  | _ => none

/-- The collection loop of `Runtime::verify` (Runtime.cc:48): every
`CallInstr`/`HandlerCallInstr` of every basic block of every handler whose
callee resolves against the registry is paired with its callback. -/
def Runtime.collectVerifiableCalls (rt : Runtime) (handlers : List IRHandler) :
    List (Instr × NativeCallback) :=
  handlers.flatMap fun h =>
    h.blocks.flatMap fun bb =>
      bb.instrs.filterMap fun i =>
        match i.calleeSignature with
        | some sig => (rt.find sig).map fun nc => (i, nc)
        | none => none

/-- `Runtime::verify(program, builder)` (Runtime.cc:45): collect all
resolvable call sites, then run each callback's verifier, failing as soon
as one rejects. -/
def Runtime.verify (rt : Runtime) (handlers : List IRHandler) : Bool :=
  (rt.collectVerifiableCalls handlers).all fun c => c.2.verify c.1

/-- `Runtime::verifyNativeCalls` (declared in Runtime.h:51): verifies all
call instructions, i.e. `Runtime::verify`. -/
def Runtime.verifyNativeCalls (rt : Runtime) (handlers : List IRHandler) : Bool :=
  rt.verify handlers

/-- A registration call against the registry, as modules issue them. -/
inductive RegOp
  | handler (name : String)
  | function (name : String) (returnType : FlowType)

/-- A registry built by a sequence of `registerHandler`/`registerFunction`
calls. -/
def applyRegOps : Runtime → List RegOp → Runtime
  | rt, [] => rt
  | rt, .handler n :: rest => applyRegOps (rt.registerHandler n).1 rest
  | rt, .function n t :: rest => applyRegOps (rt.registerFunction n t).1 rest

/-! ## `Daemon::validateContext` (Daemon.cc:510) -/

/-- One call expression collected by `FlowCallVisitor` from the entry
handler's AST: the callee's name, whether the callee is a builtin
(`callee()->isBuiltin()`), and the call's source location. -/
structure CallExpr where
  calleeName : String
  isBuiltin : Bool
  location : String
deriving Repr, DecidableEq

/-- One reported validation error: `logError` names the callee and then logs
the call's location (Daemon.cc:529-532). -/
structure ValidationError where
  calleeName : String
  location : String
deriving Repr, DecidableEq

/-- The reporting loop of `Daemon::validateContext`: user-defined (script)
handler calls are skipped (`continue`); a builtin whose name is not in the
allow-list is reported at the call's location and counted. -/
def validateContextErrors (api : List String) : List CallExpr → List ValidationError
  | [] => []
  | c :: rest =>
    if c.isBuiltin = false then validateContextErrors api rest
    else if api.contains c.calleeName then validateContextErrors api rest
    else ⟨c.calleeName, c.location⟩ :: validateContextErrors api rest

/-- `Daemon::validateContext`: the reported errors, and whether validation
succeeded (it throws `ConfigurationError` iff `errorCount` is nonzero). -/
def validateContext (api : List String) (calls : List CallExpr) :
    List ValidationError × Bool :=
  let errs := validateContextErrors api calls
  (errs, errs.length = 0)

/-! ## `CoreModule::preproc_sys_env` / `preproc_sys_env2` (core.cc:595,622) -/

/-- What an IR-time verifier did to the call it inspected: rejected it
(returned `false` after a diagnostic), left it unchanged, or replaced it by
a load of a constant string (`call->replace(LoadInstr(str, ...))`). -/
inductive PreprocOutcome
  | rejected
  | unchanged
  | rewritten (value : String)
deriving Repr, DecidableEq

/-- `CoreModule::preproc_sys_env (core.cc:595)`.  The compile-time
environment is a map from variable names to values (`getenv`); `arg1` is
the call's first operand when it is a `ConstantString` (`none` models a
non-constant argument, on which the `dynamic_cast` fails and the call is
accepted unchanged).  An empty constant name is rejected; any other
constant name is rewritten to a load of `getenv(name)`, or of `""` when the
variable is unset. -/
def preproc_sys_env (env : String → Option String) (arg1 : Option String) :
    PreprocOutcome × Bool :=
  match arg1 with
  | none => (.unchanged, true)
  | some s =>
    if s = "" then (.rejected, false)
    else (.rewritten ((env s).getD ""), true)

/-- `CoreModule::preproc_sys_env2 (core.cc:622)`: like `preproc_sys_env`
but with a constant default value as second operand; the rewrite uses the
environment value when it is set and non-empty (`cval && *cval`), else the
default; non-constant operands leave the call unchanged and accepted. -/
def preproc_sys_env2 (env : String → Option String)
    (arg1 arg2 : Option String) : PreprocOutcome × Bool :=
  match arg1, arg2 with
  | some s, some dflt =>
    if s = "" then (.rejected, false)
    else
      (.rewritten (match env s with
        | some v => if v = "" then dflt else v
        | none => dflt), true)
  | _, _ => (.unchanged, true)

/-! ## Diagnostics and the flowtest harness (flowtest.cc:134) -/

/-- The diagnostics message kinds. -/
inductive MessageKind
  | TokenError | SyntaxError | TypeError | Warning | LinkError
deriving Repr, DecidableEq

/-- A diagnostics message: kind, location and text. -/
structure Message where
  kind : MessageKind
  location : String
  text : String
deriving Repr, DecidableEq

/-- A collecting diagnostics report (append-only list of messages). -/
abbrev Report := List Message

/-- Modelled from the spec: `Report` equality is set-based over
`(kind, location, text)` (the diagnostics sources are not part of this
tree). -/
def reportEq (a b : Report) : Bool :=
  a.all (fun m => b.contains m) && b.all (fun m => a.contains m)

/-- Modelled from the spec: `difference(a, b)` returns the pair
`(missing, superfluous)`: the messages of `b` absent from `a`, and the
messages of `a` absent from `b` — `testFile` calls it as
`difference(actual, expected)` and labels the components `Missing` and
`Superfluous`. -/
def difference (a b : Report) : Report × Report :=
  (b.filter (fun m => !(a.contains m)), a.filter (fun m => !(b.contains m)))

/-- A harness error reported by `Tester::reportError`. -/
inductive TestError
  | missing (m : Message)
  | superfluous (m : Message)
deriving Repr, DecidableEq

/-- `Tester::testFile (flowtest.cc:134)`: compile the file into `actual`;
parse the expected-diagnostics section (`none` models a parse failure, on
which `testFile` returns `false` at once); report every missing and every
superfluous message; succeed iff the two reports are equal. -/
def testFile (actual : Report) (expectedParse : Option Report) :
    Bool × List TestError :=
  match expectedParse with
  | none => (false, [])
  | some expected =>
    let diff := difference actual expected
    let errs := diff.1.map TestError.missing ++ diff.2.map TestError.superfluous
    (if reportEq actual expected then true else false, errs)

/-! ## Bookkeeping lemmas about the code generator

The back-patching argument needs three facts about emission: code only
grows; the jump worklists and match hints only grow, with recorded pcs
(resp. match ids) fresh at recording time; and already-recorded match
definitions are never modified again before patching. -/

/-- Emission steps that do not record jump sites or match hints: the
worklists, the hints and the already-present match definitions are
untouched and the code only grows. -/
def FieldsPreserved (st st1 : GenState) : Prop :=
  st1.condJumps = st.condJumps
  ∧ st1.uncondJumps = st.uncondJumps
  ∧ st1.matchHints = st.matchHints
  ∧ st1.pool.matchDefs = st.pool.matchDefs
  ∧ st.code.length ≤ st1.code.length

theorem FieldsPreserved.refl (st : GenState) : FieldsPreserved st st :=
  ⟨rfl, rfl, rfl, rfl, Nat.le_refl _⟩

theorem FieldsPreserved.trans {s0 s1 s2 : GenState}
    (a : FieldsPreserved s0 s1) (b : FieldsPreserved s1 s2) :
    FieldsPreserved s0 s2 := by
  obtain ⟨a1, a2, a3, a4, a5⟩ := a
  obtain ⟨b1, b2, b3, b4, b5⟩ := b
  exact ⟨b1.trans a1, b2.trans a2, b3.trans a3, b4.trans a4, a5.trans b5⟩

theorem fp_emitInstr (i : Instruction) (st : GenState) :
    FieldsPreserved st (GenState.emitInstr i st) := by
  refine ⟨rfl, rfl, rfl, rfl, ?_⟩
  simp [GenState.emitInstr]

theorem fp_push (v : Value) (st : GenState) :
    FieldsPreserved st (GenState.push v st) :=
  ⟨rfl, rfl, rfl, rfl, Nat.le_refl _⟩

theorem fp_pop {k : Nat} {st st1 : GenState}
    (h : GenState.pop k st = some st1) : FieldsPreserved st st1 := by
  unfold GenState.pop at h
  split at h
  · exact absurd h (by simp)
  · obtain rfl := Option.some.inj h
    exact ⟨rfl, rfl, rfl, rfl, Nat.le_refl _⟩

theorem fp_changeStack {k : Nat} {pv : Option Value} {st st1 : GenState}
    (h : GenState.changeStack k pv st = some st1) : FieldsPreserved st st1 := by
  unfold GenState.changeStack at h
  rcases hk : (if k > 0 then GenState.pop k st else some st) with _ | st2
  · rw [hk] at h
    simp at h
  · rw [hk] at h
    have h1 : FieldsPreserved st st2 := by
      by_cases hkk : k > 0
      · rw [if_pos hkk] at hk
        exact fp_pop hk
      · rw [if_neg hkk] at hk
        obtain rfl := Option.some.inj hk
        exact FieldsPreserved.refl _
    cases pv with
    | some v =>
      simp only [Option.some.injEq] at h
      subst h
      exact h1.trans (fp_push v st2)
    | none =>
      simp only [Option.some.injEq] at h
      subst h
      exact h1

/-- `emitLoad` appends exactly one instruction, pushes exactly the loaded
value, and records neither jump sites nor match hints. -/
theorem emitLoad_spec {v : Value} {st st1 : GenState}
    (h : GenState.emitLoad v st = some st1) :
    (∃ ins, st1.code = st.code ++ [ins])
    ∧ st1.stack = st.stack ++ [v]
    ∧ st1.condJumps = st.condJumps
    ∧ st1.uncondJumps = st.uncondJumps
    ∧ st1.matchHints = st.matchHints
    ∧ st1.pool.matchDefs = st.pool.matchDefs
    ∧ st1.handlerId = st.handlerId
    ∧ st1.handlerName = st.handlerName := by
  cases v with
  | constInt n =>
    rw [GenState.emitLoad] at h
    split at h <;>
    · obtain rfl := Option.some.inj h
      exact ⟨⟨_, rfl⟩, rfl, rfl, rfl, rfl, rfl, rfl, rfl⟩
  | constBool b =>
    rw [GenState.emitLoad] at h
    obtain rfl := Option.some.inj h
    exact ⟨⟨_, rfl⟩, rfl, rfl, rfl, rfl, rfl, rfl, rfl⟩
  | constString s =>
    rw [GenState.emitLoad] at h
    obtain rfl := Option.some.inj h
    exact ⟨⟨_, rfl⟩, rfl, rfl, rfl, rfl, rfl, rfl, rfl⟩
  | constIP s =>
    rw [GenState.emitLoad] at h
    obtain rfl := Option.some.inj h
    exact ⟨⟨_, rfl⟩, rfl, rfl, rfl, rfl, rfl, rfl, rfl⟩
  | constCidr s =>
    rw [GenState.emitLoad] at h
    obtain rfl := Option.some.inj h
    exact ⟨⟨_, rfl⟩, rfl, rfl, rfl, rfl, rfl, rfl, rfl⟩
  | constRegExp s =>
    rw [GenState.emitLoad] at h
    obtain rfl := Option.some.inj h
    exact ⟨⟨_, rfl⟩, rfl, rfl, rfl, rfl, rfl, rfl, rfl⟩
  | constIntArray a =>
    rw [GenState.emitLoad] at h
    obtain rfl := Option.some.inj h
    exact ⟨⟨_, rfl⟩, rfl, rfl, rfl, rfl, rfl, rfl, rfl⟩
  | constStringArray a =>
    rw [GenState.emitLoad] at h
    obtain rfl := Option.some.inj h
    exact ⟨⟨_, rfl⟩, rfl, rfl, rfl, rfl, rfl, rfl, rfl⟩
  | constIPArray a =>
    rw [GenState.emitLoad] at h
    obtain rfl := Option.some.inj h
    exact ⟨⟨_, rfl⟩, rfl, rfl, rfl, rfl, rfl, rfl, rfl⟩
  | constCidrArray a =>
    rw [GenState.emitLoad] at h
    obtain rfl := Option.some.inj h
    exact ⟨⟨_, rfl⟩, rfl, rfl, rfl, rfl, rfl, rfl, rfl⟩
  | ssa id ty =>
    rw [GenState.emitLoad] at h
    split at h
    · obtain rfl := Option.some.inj h
      exact ⟨⟨_, rfl⟩, rfl, rfl, rfl, rfl, rfl, rfl, rfl⟩
    · exact absurd h (by simp)

/-- `emitLoad` steps preserve the bookkeeping fields. -/
theorem fp_emitLoad {v : Value} {st st1 : GenState}
    (h : GenState.emitLoad v st = some st1) : FieldsPreserved st st1 := by
  obtain ⟨⟨ins, hc⟩, _, h3, h4, h5, h6, _, _⟩ := emitLoad_spec h
  exact ⟨h3, h4, h5, h6, by simp [hc]⟩

/-- `emitLoadAll` appends one instruction per argument and pushes exactly
the argument list. -/
theorem emitLoadAll_spec {args : List Value} {st st1 : GenState}
    (h : GenState.emitLoadAll args st = some st1) :
    (∃ c, st1.code = st.code ++ c ∧ c.length = args.length)
    ∧ st1.stack = st.stack ++ args
    ∧ st1.condJumps = st.condJumps
    ∧ st1.uncondJumps = st.uncondJumps
    ∧ st1.matchHints = st.matchHints
    ∧ st1.pool.matchDefs = st.pool.matchDefs := by
  induction args generalizing st with
  | nil =>
    rw [GenState.emitLoadAll] at h
    obtain rfl := Option.some.inj h
    exact ⟨⟨[], by simp, rfl⟩, by simp, rfl, rfl, rfl, rfl⟩
  | cons a rest ih =>
    rw [GenState.emitLoadAll] at h
    simp only [Option.bind_eq_bind, Option.bind_eq_some] at h
    obtain ⟨stm, hm, h⟩ := h
    obtain ⟨⟨ins, hc⟩, hs, h3, h4, h5, h6, _, _⟩ := emitLoad_spec hm
    obtain ⟨⟨c, hc2, hlen⟩, hs2, g3, g4, g5, g6⟩ := ih h
    refine ⟨⟨[ins] ++ c, ?_, by simp [hlen]⟩, ?_,
      g3.trans h3, g4.trans h4, g5.trans h5, g6.trans h6⟩
    · rw [hc2, hc]; simp
    · rw [hs2, hs]; simp

theorem fp_emitLoadAll {args : List Value} {st st1 : GenState}
    (h : GenState.emitLoadAll args st = some st1) : FieldsPreserved st st1 := by
  obtain ⟨⟨c, hc, _⟩, _, h3, h4, h5, h6⟩ := emitLoadAll_spec h
  exact ⟨h3, h4, h5, h6, by simp [hc]⟩

/-- `pop` only changes the stack. -/
theorem pop_spec {k : Nat} {st st1 : GenState}
    (h : GenState.pop k st = some st1) :
    st1.code = st.code ∧ st1.condJumps = st.condJumps
    ∧ st1.uncondJumps = st.uncondJumps ∧ st1.matchHints = st.matchHints
    ∧ st1.pool = st.pool ∧ st1.handlerId = st.handlerId
    ∧ st1.handlerName = st.handlerName := by
  unfold GenState.pop at h
  split at h
  · exact absurd h (by simp)
  · obtain rfl := Option.some.inj h
    exact ⟨rfl, rfl, rfl, rfl, rfl, rfl, rfl⟩

/-- `popIf` only changes the stack. -/
theorem popIf_spec {k : Nat} {st st1 : GenState}
    (h : GenState.popIf k st = some st1) :
    st1.code = st.code ∧ st1.condJumps = st.condJumps
    ∧ st1.uncondJumps = st.uncondJumps ∧ st1.matchHints = st.matchHints
    ∧ st1.pool = st.pool ∧ st1.handlerId = st.handlerId
    ∧ st1.handlerName = st.handlerName := by
  unfold GenState.popIf at h
  split at h
  · exact pop_spec h
  · obtain rfl := Option.some.inj h
    exact ⟨rfl, rfl, rfl, rfl, rfl, rfl, rfl⟩

theorem fp_popIf {k : Nat} {st st1 : GenState}
    (h : GenState.popIf k st = some st1) : FieldsPreserved st st1 := by
  obtain ⟨c1, c2, c3, c4, c5, _, _⟩ := popIf_spec h
  exact ⟨c2, c3, c4, by rw [c5], by rw [c1]⟩

/-- `changeStack` only changes the stack. -/
theorem changeStack_spec {k : Nat} {pv : Option Value} {st st1 : GenState}
    (h : GenState.changeStack k pv st = some st1) :
    st1.code = st.code ∧ st1.condJumps = st.condJumps
    ∧ st1.uncondJumps = st.uncondJumps ∧ st1.matchHints = st.matchHints
    ∧ st1.pool = st.pool ∧ st1.handlerId = st.handlerId
    ∧ st1.handlerName = st.handlerName := by
  unfold GenState.changeStack at h
  rcases hk : (if k > 0 then GenState.pop k st else some st) with _ | st2
  · rw [hk] at h
    simp at h
  · rw [hk] at h
    have h1 : st2.code = st.code ∧ st2.condJumps = st.condJumps
        ∧ st2.uncondJumps = st.uncondJumps ∧ st2.matchHints = st.matchHints
        ∧ st2.pool = st.pool ∧ st2.handlerId = st.handlerId
        ∧ st2.handlerName = st.handlerName := by
      by_cases hkk : k > 0
      · rw [if_pos hkk] at hk
        exact pop_spec hk
      · rw [if_neg hkk] at hk
        obtain rfl := Option.some.inj hk
        exact ⟨rfl, rfl, rfl, rfl, rfl, rfl, rfl⟩
    cases pv with
    | some v =>
      simp only [Option.some.injEq] at h
      subst h
      exact h1
    | none =>
      simp only [Option.some.injEq] at h
      subst h
      exact h1

/-- The exact effect of `emitCondJump`: one placeholder instruction, one
fresh conditional site recorded at the old code length. -/
theorem emitCondJump_spec {opc : Opcode} {bb : Nat} {st st1 : GenState}
    (h : GenState.emitCondJump opc bb st = some st1) :
    st1.code = st.code ++ [makeInstruction opc 0 0 0]
    ∧ st1.condJumps = st.condJumps ++ [⟨bb, st.code.length, opc⟩]
    ∧ st1.uncondJumps = st.uncondJumps
    ∧ st1.matchHints = st.matchHints
    ∧ st1.pool = st.pool := by
  unfold GenState.emitCondJump at h
  simp only [Option.bind_eq_bind, Option.bind_eq_some] at h
  obtain ⟨st2, hm, h⟩ := h
  obtain ⟨c1, c2, c3, c4, c5, _, _⟩ := changeStack_spec hm
  obtain rfl := Option.some.inj h
  simp only [GenState.emitInstr, GenState.ip] at c1 c2 c3 c4 c5
  refine ⟨c1, ?_, c3, c4, c5⟩
  rw [c2]
  rfl

/-- The exact effect of `emitJump`. -/
theorem emitJump_spec (bb : Nat) (st : GenState) :
    (GenState.emitJump bb st).code = st.code ++ [makeInstruction .JMP 0 0 0]
    ∧ (GenState.emitJump bb st).condJumps = st.condJumps
    ∧ (GenState.emitJump bb st).uncondJumps
        = st.uncondJumps ++ [⟨bb, st.code.length, .JMP⟩]
    ∧ (GenState.emitJump bb st).matchHints = st.matchHints
    ∧ (GenState.emitJump bb st).pool = st.pool :=
  ⟨rfl, rfl, rfl, rfl, rfl⟩

/-! ## The generator invariant

While a handler is being emitted, every recorded jump site points strictly
below the current code length, recorded pcs are pairwise distinct, every
match hint's definition exists in the pool with one case entry per case
target, and hint ids are pairwise distinct. -/

def GenInv (st : GenState) : Prop :=
  (∀ s ∈ st.condJumps ++ st.uncondJumps, s.pc < st.code.length)
  ∧ (st.condJumps ++ st.uncondJumps).Pairwise (fun a b => a.pc ≠ b.pc)
  ∧ (∀ mh ∈ st.matchHints, ∃ d, st.pool.matchDefs[mh.matchId]? = some d
      ∧ d.cases.length = mh.caseBlocks.length)
  ∧ st.matchHints.Pairwise (fun a b => a.matchId ≠ b.matchId)

theorem GenInv.ofFP {st st1 : GenState} (fp : FieldsPreserved st st1)
    (h : GenInv st) : GenInv st1 := by
  obtain ⟨f1, f2, f3, f4, f5⟩ := fp
  obtain ⟨h1, h2, h3, h4⟩ := h
  refine ⟨?_, ?_, ?_, ?_⟩
  · rw [f1, f2]
    intro s hs
    exact lt_of_lt_of_le (h1 s hs) f5
  · rw [f1, f2]
    exact h2
  · rw [f3, f4]
    exact h3
  · rw [f3]
    exact h4

theorem pairwise_pc_append_singleton {l : List JumpSite} {s : JumpSite}
    (hl : l.Pairwise (fun a b => a.pc ≠ b.pc)) (hs : ∀ a ∈ l, a.pc ≠ s.pc) :
    (l ++ [s]).Pairwise (fun a b => a.pc ≠ b.pc) := by
  rw [List.pairwise_append]
  refine ⟨hl, by simp, ?_⟩
  intro a ha b hb
  simp only [List.mem_singleton] at hb
  subst hb
  exact hs a ha

/-- Recording an unconditional jump preserves the invariant: the new site's
pc is the (fresh) current code length. -/
theorem GenInv.emitJumpInv {st : GenState} (bb : Nat) (h : GenInv st) :
    GenInv (GenState.emitJump bb st) := by
  obtain ⟨hc, hcj, hu, hm⟩ := emitJump_spec bb st
  obtain ⟨h1, h2, h3, h4⟩ := h
  obtain ⟨hmh, hpool⟩ := hm
  have hpc : ((⟨bb, st.code.length, .JMP⟩ : JumpSite)).pc = st.code.length := rfl
  refine ⟨?_, ?_, ?_, ?_⟩
  · rw [hcj, hu, hc]
    intro s hs
    simp only [List.append_assoc, List.mem_append, List.mem_singleton] at hs
    rcases hs with hs | hs | rfl
    · have := h1 s (List.mem_append_left _ hs)
      simp only [List.length_append, List.length_singleton]
      omega
    · have := h1 s (List.mem_append_right _ hs)
      simp only [List.length_append, List.length_singleton]
      omega
    · simp only [List.length_append, List.length_singleton]
      omega
  · rw [hcj, hu, ← List.append_assoc]
    refine pairwise_pc_append_singleton h2 ?_
    intro a ha
    have := h1 a ha
    omega
  · rw [hmh, hpool]
    exact h3
  · rw [hmh]
    exact h4

/-- Recording a conditional jump preserves the invariant. -/
theorem GenInv.emitCondJumpInv {opc : Opcode} {bb : Nat} {st st1 : GenState}
    (h : GenState.emitCondJump opc bb st = some st1) (hi : GenInv st) :
    GenInv st1 := by
  obtain ⟨hc, hcj, hu, hmh, hpool⟩ := emitCondJump_spec h
  obtain ⟨h1, h2, h3, h4⟩ := hi
  have hpc : ((⟨bb, st.code.length, opc⟩ : JumpSite)).pc = st.code.length := rfl
  refine ⟨?_, ?_, ?_, ?_⟩
  · rw [hcj, hu, hc]
    intro s hs
    simp only [List.append_assoc, List.mem_append, List.mem_singleton] at hs
    rcases hs with hs | rfl | hs
    · have := h1 s (List.mem_append_left _ hs)
      simp only [List.length_append, List.length_singleton]
      omega
    · simp only [List.length_append, List.length_singleton]
      omega
    · have := h1 s (List.mem_append_right _ hs)
      simp only [List.length_append, List.length_singleton]
      omega
  · rw [hcj, hu]
    have hperm : List.Perm
        ((st.condJumps ++ [(⟨bb, st.code.length, opc⟩ : JumpSite)])
          ++ st.uncondJumps)
        ((st.condJumps ++ st.uncondJumps)
          ++ [(⟨bb, st.code.length, opc⟩ : JumpSite)]) := by
      rw [List.append_assoc, List.append_assoc]
      exact List.Perm.append_left _ List.perm_append_comm
    refine (List.Perm.pairwise_iff ?_ hperm).mpr ?_
    · intro a b hab
      exact hab.symm
    · refine pairwise_pc_append_singleton h2 ?_
      intro a ha
      have := h1 a ha
      omega
  · rw [hmh, hpool]
    exact h3
  · rw [hmh]
    exact h4

theorem fp_emitBinary {self l r : Value} {opc : Opcode} {st st1 : GenState}
    (h : GenState.emitBinary self l r opc st = some st1) :
    FieldsPreserved st st1 := by
  unfold GenState.emitBinary at h
  simp only [Option.bind_eq_bind, Option.bind_eq_some] at h
  obtain ⟨s1, h1, s2, h2, h⟩ := h
  exact ((fp_emitLoad h1).trans (fp_emitLoad h2)).trans
    ((fp_emitInstr _ _).trans (fp_changeStack h))

theorem fp_emitUnary {self operand : Value} {opc : Opcode} {st st1 : GenState}
    (h : GenState.emitUnary self operand opc st = some st1) :
    FieldsPreserved st st1 := by
  unfold GenState.emitUnary at h
  simp only [Option.bind_eq_bind, Option.bind_eq_some] at h
  obtain ⟨s1, h1, h⟩ := h
  exact (fp_emitLoad h1).trans ((fp_emitInstr _ _).trans (fp_changeStack h))

theorem makeHandler_matchDefs (cp : ConstantPool) (n : String) :
    ((cp.makeHandler n).2).matchDefs = cp.matchDefs := by
  unfold ConstantPool.makeHandler
  split <;> rfl

theorem buildMatchCases_matchDefs (cs : List (MatchLabel × Nat))
    (cp : ConstantPool) :
    ((GenState.buildMatchCases cs cp).2).matchDefs = cp.matchDefs := by
  induction cs generalizing cp with
  | nil => rfl
  | cons c rest ih =>
    obtain ⟨lbl, tgt⟩ := c
    cases lbl with
    | str s =>
      rw [GenState.buildMatchCases]
      exact ih _
    | regex s =>
      rw [GenState.buildMatchCases]
      exact ih _

theorem set_concat_length {α : Type} (l : List α) (a b : α) :
    (l ++ [a]).set l.length b = l ++ [b] := by
  rw [List.set_append_right _ _ (Nat.le_refl _)]
  simp

theorem buildMatchCases_length (cs : List (MatchLabel × Nat))
    (cp : ConstantPool) :
    ((GenState.buildMatchCases cs cp).1).length = cs.length := by
  induction cs generalizing cp with
  | nil => rfl
  | cons c rest ih =>
    obtain ⟨lbl, tgt⟩ := c
    cases lbl with
    | str s =>
      rw [GenState.buildMatchCases]
      simp only [List.length_cons]
      rw [ih]
    | regex s =>
      rw [GenState.buildMatchCases]
      simp only [List.length_cons]
      rw [ih]

/-- One visitor step: the code only grows, and the generator invariant is
preserved. -/
theorem visitInstr_step {order : List Nat} {cur : Nat} {i : Instr}
    {st st1 : GenState} (h : GenState.visitInstr order cur i st = some st1) :
    st.code.length ≤ st1.code.length ∧ (GenInv st → GenInv st1) := by
  cases i with
  | nop =>
    rw [GenState.visitInstr] at h
    obtain rfl := Option.some.inj h
    exact ⟨(fp_emitInstr _ _).2.2.2.2, fun hi => hi.ofFP (fp_emitInstr _ _)⟩
  | alloca self =>
    rw [GenState.visitInstr] at h
    obtain rfl := Option.some.inj h
    have fp := (fp_emitInstr (makeInstruction .ALLOCA 1 0 0) st).trans
      (fp_push self _)
    exact ⟨fp.2.2.2.2, fun hi => hi.ofFP fp⟩
  | store var source sourceUses =>
    rw [GenState.visitInstr] at h
    simp only [Option.bind_eq_bind, Option.bind_eq_some] at h
    obtain ⟨di, hdi, h⟩ := h
    split at h
    · have fp := (fp_emitInstr (makeInstruction .STORE di 0 0) st).trans
        (fp_changeStack h)
      exact ⟨fp.2.2.2.2, fun hi => hi.ofFP fp⟩
    · simp only [Option.bind_eq_bind, Option.bind_eq_some] at h
      obtain ⟨s1, h1, h⟩ := h
      have fp := (fp_emitLoad h1).trans
        ((fp_emitInstr (makeInstruction .STORE di 0 0) s1).trans
          (fp_changeStack h))
      exact ⟨fp.2.2.2.2, fun hi => hi.ofFP fp⟩
  | load self var =>
    rw [GenState.visitInstr] at h
    simp only [Option.bind_eq_bind, Option.bind_eq_some] at h
    obtain ⟨si, hsi, h⟩ := h
    obtain rfl := Option.some.inj h
    have fp := (fp_emitInstr (makeInstruction .LOAD si 0 0) st).trans
      (fp_push self _)
    exact ⟨fp.2.2.2.2, fun hi => hi.ofFP fp⟩
  | phi =>
    rw [GenState.visitInstr] at h
    exact absurd h (by simp)
  | call self callee args used =>
    rw [GenState.visitInstr] at h
    simp only [Option.bind_eq_bind, Option.bind_eq_some] at h
    obtain ⟨s1, h1, s3, h3, h⟩ := h
    have fp1 : FieldsPreserved st s1 := fp_emitLoadAll h1
    have fp2 : FieldsPreserved s1
        (GenState.emitInstr
          (makeInstruction .CALL (s1.pool.makeNativeFunction callee).1
            args.length
            (if callee.returnType ≠ FlowType.Void then 1 else 0))
          {s1 with pool := (s1.pool.makeNativeFunction callee).2}) :=
      ⟨rfl, rfl, rfl, rfl, by simp [GenState.emitInstr]⟩
    have fp3 : FieldsPreserved _ s3 := fp_popIf h3
    have fp13 := (fp1.trans fp2).trans fp3
    split at h
    · split at h
      · obtain rfl := Option.some.inj h
        have fp := fp13.trans (fp_push self s3)
        exact ⟨fp.2.2.2.2, fun hi => hi.ofFP fp⟩
      · have fp := fp13.trans ((fp_push self s3).trans
          ((fp_emitInstr (makeInstruction .DISCARD 1 0 0) _).trans (fp_pop h)))
        exact ⟨fp.2.2.2.2, fun hi => hi.ofFP fp⟩
    · obtain rfl := Option.some.inj h
      exact ⟨fp13.2.2.2.2, fun hi => hi.ofFP fp13⟩
  | handlerCall callee args =>
    rw [GenState.visitInstr] at h
    simp only [Option.bind_eq_bind, Option.bind_eq_some] at h
    obtain ⟨s1, h1, h⟩ := h
    have fp1 : FieldsPreserved st s1 := fp_emitLoadAll h1
    have fp2 : FieldsPreserved s1
        (GenState.emitInstr
          (makeInstruction .HANDLER (s1.pool.makeNativeHandler callee).1
            args.length 0)
          {s1 with pool := (s1.pool.makeNativeHandler callee).2}) :=
      ⟨rfl, rfl, rfl, rfl, by simp [GenState.emitInstr]⟩
    have fp3 : FieldsPreserved _ st1 := fp_popIf h
    have fp := (fp1.trans fp2).trans fp3
    exact ⟨fp.2.2.2.2, fun hi => hi.ofFP fp⟩
  | condBr condition tb fb =>
    rw [GenState.visitInstr] at h
    split at h
    · simp only [Option.bind_eq_bind, Option.bind_eq_some] at h
      obtain ⟨s1, h1, h⟩ := h
      obtain ⟨hc, _, _, _, _⟩ := emitCondJump_spec h
      refine ⟨?_, fun hi => GenInv.emitCondJumpInv h (hi.ofFP (fp_emitLoad h1))⟩
      have := (fp_emitLoad h1).2.2.2.2
      simp only [hc, List.length_append, List.length_singleton]
      omega
    · split at h
      · simp only [Option.bind_eq_bind, Option.bind_eq_some] at h
        obtain ⟨s1, h1, h⟩ := h
        obtain ⟨hc, _, _, _, _⟩ := emitCondJump_spec h
        refine ⟨?_, fun hi => GenInv.emitCondJumpInv h (hi.ofFP (fp_emitLoad h1))⟩
        have := (fp_emitLoad h1).2.2.2.2
        simp only [hc, List.length_append, List.length_singleton]
        omega
      · simp only [Option.bind_eq_bind, Option.bind_eq_some] at h
        obtain ⟨s1, h1, s2, h2, h⟩ := h
        obtain rfl := Option.some.inj h
        obtain ⟨hc, _, _, _, _⟩ := emitCondJump_spec h2
        refine ⟨?_, fun hi =>
          (GenInv.emitCondJumpInv h2 (hi.ofFP (fp_emitLoad h1))).emitJumpInv fb⟩
        have hl1 := (fp_emitLoad h1).2.2.2.2
        have hl3 := (emitJump_spec fb s2).1
        simp only [hl3, hc, List.length_append, List.length_singleton]
        omega
  | br targetBlock =>
    rw [GenState.visitInstr] at h
    split at h
    · obtain rfl := Option.some.inj h
      exact ⟨Nat.le_refl _, fun hi => hi⟩
    · obtain rfl := Option.some.inj h
      refine ⟨?_, fun hi => hi.emitJumpInv targetBlock⟩
      have := (emitJump_spec targetBlock st).1
      simp [this]
  | ret imm =>
    rw [GenState.visitInstr] at h
    obtain rfl := Option.some.inj h
    exact ⟨(fp_emitInstr _ _).2.2.2.2, fun hi => hi.ofFP (fp_emitInstr _ _)⟩
  | matchInstr op condition cases elseBlock =>
    rw [GenState.visitInstr] at h
    simp only [Option.bind_eq_bind, Option.bind_eq_some] at h
    obtain ⟨s3, h3, h⟩ := h
    obtain rfl := Option.some.inj h
    -- the state st2 on which the condition is loaded
    set L := (st.pool.makeMatchDef).1 with hL
    have hdefs2 :
        (GenState.buildMatchCases cases
            ((st.pool.makeMatchDef).2.makeHandler st.handlerName).2).2.matchDefs
          = st.pool.matchDefs ++ [⟨0, .Same, [], 0⟩] := by
      rw [buildMatchCases_matchDefs, makeHandler_matchDefs]
      rfl
    have hstep2 : GenInv st → GenInv
        {st with
          pool := (GenState.buildMatchCases cases
              ((st.pool.makeMatchDef).2.makeHandler st.handlerName).2).2.setMatchDef L
            ⟨(((st.pool.makeMatchDef).2).makeHandler st.handlerName).1, op,
              (GenState.buildMatchCases cases
                ((st.pool.makeMatchDef).2.makeHandler st.handlerName).2).1, 0⟩,
          matchHints := st.matchHints
            ++ [(⟨cases.map Prod.snd, elseBlock, L⟩ : MatchHint)]} := by
      intro hi
      obtain ⟨h1, h2, h3, h4⟩ := hi
      have hsetdefs :
          ((GenState.buildMatchCases cases
              ((st.pool.makeMatchDef).2.makeHandler st.handlerName).2).2.setMatchDef L
            ⟨(((st.pool.makeMatchDef).2).makeHandler st.handlerName).1, op,
              (GenState.buildMatchCases cases
                ((st.pool.makeMatchDef).2.makeHandler st.handlerName).2).1,
              0⟩).matchDefs
          = st.pool.matchDefs
            ++ [⟨(((st.pool.makeMatchDef).2).makeHandler st.handlerName).1, op,
                 (GenState.buildMatchCases cases
                   ((st.pool.makeMatchDef).2.makeHandler st.handlerName).2).1,
                 0⟩] := by
        show ((GenState.buildMatchCases cases
            ((st.pool.makeMatchDef).2.makeHandler st.handlerName).2).2.matchDefs.set
            L _) = _
        rw [hdefs2]
        exact set_concat_length _ _ _
      refine ⟨h1, h2, ?_, ?_⟩
      · intro mh hmh
        simp only [List.mem_append, List.mem_singleton] at hmh
        rcases hmh with hmh | rfl
        · obtain ⟨d, hd, hdl⟩ := h3 mh hmh
          refine ⟨d, ?_, hdl⟩
          have hlt : mh.matchId < st.pool.matchDefs.length :=
            (List.getElem?_eq_some_iff.mp hd).1
          simp only [hsetdefs]
          rw [List.getElem?_append_left hlt]
          exact hd
        · refine ⟨⟨((st.pool.makeMatchDef).2.makeHandler st.handlerName).1, op,
              (GenState.buildMatchCases cases
                ((st.pool.makeMatchDef).2.makeHandler st.handlerName).2).1, 0⟩,
            ?_, ?_⟩
          · simp only [hsetdefs]
            exact List.getElem?_concat_length _ _
          · simp only [buildMatchCases_length, List.length_map]
      · rw [List.pairwise_append]
        refine ⟨h4, by simp, ?_⟩
        intro a ha b hb
        simp only [List.mem_singleton] at hb
        subst hb
        obtain ⟨d, hd, _⟩ := h3 a ha
        have hlt : a.matchId < st.pool.matchDefs.length :=
          (List.getElem?_eq_some_iff.mp hd).1
        have hLlen : L = st.pool.matchDefs.length := rfl
        show a.matchId ≠ L
        omega
    have fpl := fp_emitLoad h3
    constructor
    · have := fpl.2.2.2.2
      simp only [GenState.emitInstr, List.length_append, List.length_singleton]
      simp only at this
      omega
    · intro hi
      exact ((hstep2 hi).ofFP fpl).ofFP (fp_emitInstr _ _)
  | cast self targetType source =>
    rw [GenState.visitInstr] at h
    split at h
    · have fp := fp_emitLoad h
      exact ⟨fp.2.2.2.2, fun hi => hi.ofFP fp⟩
    · split at h
      · rename_i opc2 heq2
        simp only [Option.bind_eq_bind, Option.bind_eq_some] at h
        obtain ⟨s1, h1, h⟩ := h
        obtain rfl := Option.some.inj h
        have fp := (fp_emitLoad h1).trans
          (fp_emitInstr (makeInstruction opc2 0 0 0) s1)
        exact ⟨fp.2.2.2.2, fun hi => hi.ofFP fp⟩
      · exact absurd h (by simp)
  | unary self op operand =>
    rw [GenState.visitInstr] at h
    have fp := fp_emitUnary h
    exact ⟨fp.2.2.2.2, fun hi => hi.ofFP fp⟩
  | binary self op lhs rhs =>
    rw [GenState.visitInstr] at h
    have fp := fp_emitBinary h
    exact ⟨fp.2.2.2.2, fun hi => hi.ofFP fp⟩
  | scmpre self lhs re =>
    rw [GenState.visitInstr] at h
    simp only [Option.bind_eq_bind, Option.bind_eq_some] at h
    obtain ⟨s1, h1, h⟩ := h
    obtain rfl := Option.some.inj h
    have fp2 : FieldsPreserved s1
        (GenState.emitInstr
          (makeInstruction .SREGMATCH (s1.pool.makeRegExp re).1 0 0)
          {s1 with pool := (s1.pool.makeRegExp re).2}) :=
      ⟨rfl, rfl, rfl, rfl, by simp [GenState.emitInstr]⟩
    have fp := (fp_emitLoad h1).trans fp2
    exact ⟨fp.2.2.2.2, fun hi => hi.ofFP fp⟩

/-- Emitting a block's instruction list: code grows, invariant preserved. -/
theorem genInstrs_step {order : List Nat} {cur : Nat} {instrs : List Instr}
    {st st1 : GenState}
    (h : GenState.genInstrs order cur instrs st = some st1) :
    st.code.length ≤ st1.code.length ∧ (GenInv st → GenInv st1) := by
  induction instrs generalizing st with
  | nil =>
    rw [GenState.genInstrs] at h
    obtain rfl := Option.some.inj h
    exact ⟨Nat.le_refl _, fun hi => hi⟩
  | cons i rest ih =>
    rw [GenState.genInstrs] at h
    simp only [Option.bind_eq_bind, Option.bind_eq_some] at h
    obtain ⟨s1, h1, h⟩ := h
    obtain ⟨m1, i1⟩ := visitInstr_step h1
    obtain ⟨m2, i2⟩ := ih h
    exact ⟨m1.trans m2, fun hi => i2 (i1 hi)⟩

/-- The per-handler emission loop: code grows, the invariant is preserved,
and the recorded entry points list the blocks in order with nondecreasing
entry pcs bounded by the final code length. -/
theorem emitBlocks_step {order : List Nat} {bbs : List BasicBlock}
    {st st1 : GenState} {acc entries : List (Nat × Nat)}
    (h : GenState.emitBlocks order bbs st acc = some (st1, entries)) :
    st.code.length ≤ st1.code.length
    ∧ (GenInv st → GenInv st1)
    ∧ ∃ newE, entries = acc ++ newE
        ∧ newE.map Prod.fst = bbs.map BasicBlock.name
        ∧ (∀ e ∈ newE, st.code.length ≤ e.2 ∧ e.2 ≤ st1.code.length)
        ∧ List.Chain' (· ≤ ·) (newE.map Prod.snd) := by
  induction bbs generalizing st acc with
  | nil =>
    rw [GenState.emitBlocks] at h
    have h2 := Option.some.inj h
    obtain ⟨rfl, rfl⟩ := Prod.ext_iff.mp h2
    exact ⟨Nat.le_refl _, fun hi => hi,
      [], by simp, rfl, by simp, List.chain'_nil⟩
  | cons bb rest ih =>
    rw [GenState.emitBlocks] at h
    simp only [Option.bind_eq_bind, Option.bind_eq_some] at h
    obtain ⟨s1, h1, h⟩ := h
    obtain ⟨m1, i1⟩ := genInstrs_step h1
    obtain ⟨m2, i2, newE, hE, hnames, hbounds, hchain⟩ := ih h
    refine ⟨m1.trans m2, fun hi => i2 (i1 hi),
      (bb.name, st.code.length) :: newE, ?_, ?_, ?_, ?_⟩
    · rw [hE]
      simp [GenState.ip]
    · simp [hnames]
    · intro e he
      rcases List.mem_cons.mp he with rfl | he2
      · exact ⟨Nat.le_refl _, m1.trans m2⟩
      · obtain ⟨hlo, hhi⟩ := hbounds e he2
        exact ⟨m1.trans hlo, hhi⟩
    · rw [List.map_cons]
      rw [List.chain'_cons']
      refine ⟨?_, hchain⟩
      intro y hy
      have hyl : y ∈ newE.map Prod.snd := List.mem_of_mem_head? hy
      obtain ⟨e, he, rfl⟩ := List.mem_map.mp hyl
      exact m1.trans (hbounds e he).1

/-! ## Patch correctness -/

theorem patchJumpList_cons (entries : List (Nat × Nat)) (s : JumpSite)
    (rest : List JumpSite) (code : List Instruction) :
    patchJumpList entries (s :: rest) code
      = patchJumpList entries rest
          (code.set s.pc
            (makeInstruction s.opcode (entryLookup entries s.target) 0 0)) :=
  rfl

theorem patchJumpList_length (entries : List (Nat × Nat))
    (sites : List JumpSite) (code : List Instruction) :
    (patchJumpList entries sites code).length = code.length := by
  induction sites generalizing code with
  | nil => rfl
  | cons s rest ih =>
    rw [patchJumpList_cons, ih, List.length_set]

theorem patchJumpList_getElem_ne (entries : List (Nat × Nat))
    {sites : List JumpSite} {code : List Instruction} {j : Nat}
    (hj : ∀ s ∈ sites, s.pc ≠ j) :
    (patchJumpList entries sites code)[j]? = code[j]? := by
  induction sites generalizing code with
  | nil => rfl
  | cons s rest ih =>
    rw [patchJumpList_cons]
    rw [ih (fun x hx => hj x (List.mem_cons_of_mem _ hx))]
    exact List.getElem?_set_ne (hj s (List.mem_cons_self _ _))

theorem patchJumpList_getElem_mem (entries : List (Nat × Nat))
    {sites : List JumpSite} {code : List Instruction}
    (hb : ∀ s ∈ sites, s.pc < code.length)
    (hp : sites.Pairwise (fun a b => a.pc ≠ b.pc)) :
    ∀ s ∈ sites, (patchJumpList entries sites code)[s.pc]? =
      some (makeInstruction s.opcode (entryLookup entries s.target) 0 0) := by
  induction sites generalizing code with
  | nil =>
    intro s hs
    exact absurd hs (by simp)
  | cons a rest ih =>
    intro s hs
    rw [patchJumpList_cons]
    rcases List.mem_cons.mp hs with rfl | hs2
    · rw [patchJumpList_getElem_ne entries ?_]
      · exact List.getElem?_set_self (hb s (List.mem_cons_self _ _))
      · intro x hx
        have hne := (List.pairwise_cons.mp hp).1 x hx
        exact fun hEq => hne hEq.symm
    · refine ih ?_ (List.pairwise_cons.mp hp).2 s hs2
      intro x hx
      rw [List.length_set]
      exact hb x (List.mem_cons_of_mem _ hx)

/-- The back-patched form of one match definition. -/
def patchedDef (entries : List (Nat × Nat)) (d : MatchDef) (h : MatchHint) :
    MatchDef :=
  {d with
    cases := d.cases.zipWith
      (fun c b => {c with pc := entryLookup entries b}) h.caseBlocks,
    elsePC := match h.elseB with
      | some b => entryLookup entries b
      | none => d.elsePC}

theorem patchOneMatch_eq (entries : List (Nat × Nat)) (p : ConstantPool)
    (h : MatchHint) {d : MatchDef} (hd : p.matchDefs[h.matchId]? = some d) :
    patchOneMatch entries p h = p.setMatchDef h.matchId (patchedDef entries d h) := by
  unfold patchOneMatch
  rw [hd]
  rfl

theorem patchMatches_cons (entries : List (Nat × Nat)) (h : MatchHint)
    (rest : List MatchHint) (p : ConstantPool) :
    patchMatches entries (h :: rest) p
      = patchMatches entries rest (patchOneMatch entries p h) :=
  rfl

theorem patchOneMatch_getElem_ne (entries : List (Nat × Nat))
    (p : ConstantPool) (h : MatchHint) {j : Nat} (hj : h.matchId ≠ j) :
    (patchOneMatch entries p h).matchDefs[j]? = p.matchDefs[j]? := by
  unfold patchOneMatch
  split
  · rfl
  · show (p.matchDefs.set h.matchId _)[j]? = _
    exact List.getElem?_set_ne hj

theorem patchMatches_getElem_ne (entries : List (Nat × Nat))
    {hints : List MatchHint} {p : ConstantPool} {j : Nat}
    (hj : ∀ h ∈ hints, h.matchId ≠ j) :
    (patchMatches entries hints p).matchDefs[j]? = p.matchDefs[j]? := by
  induction hints generalizing p with
  | nil => rfl
  | cons a rest ih =>
    rw [patchMatches_cons]
    rw [ih (fun x hx => hj x (List.mem_cons_of_mem _ hx))]
    exact patchOneMatch_getElem_ne entries p a (hj a (List.mem_cons_self _ _))

theorem patchMatches_spec (entries : List (Nat × Nat))
    {hints : List MatchHint} {p : ConstantPool}
    (hw : ∀ h ∈ hints, ∃ d, p.matchDefs[h.matchId]? = some d)
    (hp : hints.Pairwise (fun a b => a.matchId ≠ b.matchId)) :
    ∀ h ∈ hints, ∃ d, p.matchDefs[h.matchId]? = some d
      ∧ (patchMatches entries hints p).matchDefs[h.matchId]?
          = some (patchedDef entries d h) := by
  induction hints generalizing p with
  | nil =>
    intro h hh
    exact absurd hh (by simp)
  | cons a rest ih =>
    intro h hh
    rcases List.mem_cons.mp hh with rfl | hh2
    · obtain ⟨d, hd⟩ := hw h (List.mem_cons_self _ _)
      refine ⟨d, hd, ?_⟩
      rw [patchMatches_cons]
      rw [patchMatches_getElem_ne entries ?_]
      · rw [patchOneMatch_eq entries p h hd]
        show (p.matchDefs.set h.matchId _)[h.matchId]? = _
        exact List.getElem?_set_self (List.getElem?_eq_some_iff.mp hd).1
      · intro x hx
        have hne := (List.pairwise_cons.mp hp).1 x hx
        exact fun hEq => hne hEq.symm
    · obtain ⟨d, hd⟩ := hw h (List.mem_cons_of_mem _ hh2)
      have hne : a.matchId ≠ h.matchId := (List.pairwise_cons.mp hp).1 h hh2
      have hd2 : (patchOneMatch entries p a).matchDefs[h.matchId]? = some d := by
        rw [patchOneMatch_getElem_ne entries p a hne]
        exact hd
      have hw2 : ∀ x ∈ rest,
          ∃ dx, (patchOneMatch entries p a).matchDefs[x.matchId]? = some dx := by
        intro x hx
        obtain ⟨dx, hdx⟩ := hw x (List.mem_cons_of_mem _ hx)
        have hnex : a.matchId ≠ x.matchId := (List.pairwise_cons.mp hp).1 x hx
        refine ⟨dx, ?_⟩
        rw [patchOneMatch_getElem_ne entries p a hnex]
        exact hdx
      obtain ⟨d2, hd3, hd4⟩ := ih hw2 (List.pairwise_cons.mp hp).2 h hh2
      have hdd : d = d2 := Option.some.inj (hd2.symm.trans hd3)
      subst hdd
      refine ⟨d, hd, ?_⟩
      rw [patchMatches_cons]
      exact hd4

theorem pop_stack {k : Nat} {st st1 : GenState}
    (h : GenState.pop k st = some st1) :
    st1.stack = st.stack.take (st.stack.length - k) ∧ k ≤ st.stack.length := by
  unfold GenState.pop at h
  split at h
  · exact absurd h (by simp)
  · obtain rfl := Option.some.inj h
    refine ⟨rfl, ?_⟩
    omega

theorem zipWith_setPC_map_pc (entries : List (Nat × Nat)) :
    ∀ (cs : List MatchCaseDef) (bs : List Nat), cs.length = bs.length →
    (List.zipWith (fun c b => {c with pc := entryLookup entries b}) cs bs).map
        MatchCaseDef.pc = bs.map (entryLookup entries) := by
  intro cs
  induction cs with
  | nil =>
    intro bs hlen
    cases bs with
    | nil => rfl
    | cons b bs2 => simp at hlen
  | cons c rest ih =>
    intro bs hlen
    cases bs with
    | nil => simp at hlen
    | cons b bs2 =>
      simp only [List.zipWith_cons_cons, List.map_cons]
      rw [ih bs2 (by simpa using hlen)]

/-! ## Shared example inputs -/

/-- A fresh generator state over an empty constant pool. -/
def exState : GenState := GenState.initial 0 "main" ConstantPool.empty

/-- A compile-time environment with exactly one variable, `X=hello`. -/
def envX : String → Option String :=
  fun q => if q = "X" then some "hello" else none

/-! ## Claim theorems -/

/-- C1: the spec says the target code generator lowers a `BOr` IR
instruction to the `BOR` bytecode opcode.  `visit(BOrInstr&)`
(TargetCodeGenerator.cc:618-620) instead emits `Opcode::BAND`: evaluating
the generator on a `BOr` instruction over two boolean constants yields the
sequence `ILOAD; ILOAD; BAND`, so the generated bytecode computes a
conjunction, not the claimed disjunction. -/
theorem bor_lowering_emits_BAND :
    (GenState.visitInstr [] 0
        (Instr.binary (Value.ssa 7 .Boolean) .bor
          (.constBool true) (.constBool false)) exState).map
      (fun s => s.code.map Instruction.opcode)
      = some [.ILOAD, .ILOAD, .BAND]
    ∧ binaryOpcode .bor = Opcode.BAND := by
  exact ⟨rfl, rfl⟩

/-- C7: the claim says a negative 64-bit constant is placed in the constant
pool and loaded via `NLOAD`.  `emitLoad` (TargetCodeGenerator.cc:344) only
tests `number <= numeric_limits<Operand>::max()` — a signed comparison with
no lower bound — so `-1` takes the inline `ILOAD` path and is truncated to
the operand value `65535`; a large positive constant (here `100000`)
correctly goes through the pool via `NLOAD`. -/
theorem emitLoad_negative_int_inlined :
    ((GenState.emitLoad (.constInt (-1)) exState).map fun s => s.code)
      = some [makeInstruction .ILOAD 65535 0 0]
    ∧ ((GenState.emitLoad (.constInt 100000) exState).map
        fun s => (s.code, s.pool.numbers))
      = some ([makeInstruction .NLOAD 0 0 0], [100000]) := by
  exact ⟨rfl, rfl⟩

/-- C5 counterexample: the claim says the `sys.env` verifier rewrites a
constant-string call *only when the environment variable is not set at
compile time*.  With the compile-time environment `X=hello`, the call
`sys.env("X")` is still rewritten (to a load of `"hello"`) even though `X`
is set, refuting the "only when not set" condition. -/
theorem preproc_sys_env_rewrites_set_var :
    envX "X" = some "hello"
    ∧ preproc_sys_env envX (some "X")
        = (PreprocOutcome.rewritten "hello", true) := by
  exact ⟨rfl, rfl⟩

/-- C5 (amended): `preproc_sys_env` rejects (with a diagnostic, returning
`false`) exactly when the constant variable name is empty; leaves a
non-constant argument unchanged and accepted; and rewrites every call with
a non-empty constant name into a load of the variable's compile-time value
— the empty string when the variable is unset.  `preproc_sys_env2`
behaves the same with its constant default in place of the empty string
(using the default also when the variable is set to the empty string). -/
theorem preproc_sys_env_characterization (env : String → Option String)
    (s dflt : String) :
    preproc_sys_env env none = (.unchanged, true)
    ∧ preproc_sys_env env (some "") = (.rejected, false)
    ∧ (s ≠ "" →
        preproc_sys_env env (some s) = (.rewritten ((env s).getD ""), true))
    ∧ preproc_sys_env2 env none (some dflt) = (.unchanged, true)
    ∧ preproc_sys_env2 env (some s) none = (.unchanged, true)
    ∧ preproc_sys_env2 env (some "") (some dflt) = (.rejected, false)
    ∧ (s ≠ "" →
        preproc_sys_env2 env (some s) (some dflt)
          = (.rewritten (match env s with
              | some v => if v = "" then dflt else v
              | none => dflt), true)) := by
  refine ⟨rfl, rfl, ?_, rfl, ?_, rfl, ?_⟩
  · intro hs
    simp [preproc_sys_env, hs]
  · cases s; rfl
  · intro hs
    simp [preproc_sys_env2, hs]

/-- C5 witness: the amended characterization applied to the concrete
environment `X=hello` and the call `sys.env("X")`. -/
theorem preproc_sys_env_characterization_witness :
    preproc_sys_env envX (some "X")
      = (.rewritten ((envX "X").getD ""), true)
    ∧ preproc_sys_env2 envX (some "X") (some "d")
      = (.rewritten "hello", true) := by
  refine ⟨(preproc_sys_env_characterization envX "X" "d").2.2.1 ?_,
          (preproc_sys_env_characterization envX "X" "d").2.2.2.2.2.2 ?_⟩
  · decide
  · decide

/-- The reporting loop of `Daemon::validateContext` reports exactly the
disallowed builtin calls, in order. -/
theorem validateContextErrors_eq (api : List String) (calls : List CallExpr) :
    validateContextErrors api calls
      = (calls.filter
          (fun c => c.isBuiltin && !(api.contains c.calleeName))).map
          (fun c => ⟨c.calleeName, c.location⟩) := by
  induction calls with
  | nil => rfl
  | cons c rest ih =>
    by_cases hb : c.isBuiltin = false
    · simp [validateContextErrors, hb, List.filter_cons, ih]
    · rw [Bool.not_eq_false] at hb
      by_cases ha : c.calleeName ∈ api
      · simp [validateContextErrors, hb, ha, List.filter_cons, ih]
      · simp [validateContextErrors, hb, ha, List.filter_cons, ih]

/-- C3: every call (collected from the entry handler by `FlowCallVisitor`)
to a builtin whose name is not in the allow-list is reported as an error
carrying the call's location; every reported error stems from such a call
(so user-defined handler calls are skipped and produce no report); and
validation succeeds (no `ConfigurationError` is thrown) iff every builtin
call's name is in the allow-list. -/
theorem validateContext_reports (api : List String) (calls : List CallExpr) :
    (∀ c ∈ calls, c.isBuiltin = true → c.calleeName ∉ api →
        (⟨c.calleeName, c.location⟩ : ValidationError)
          ∈ (validateContext api calls).1)
    ∧ (∀ e ∈ (validateContext api calls).1, ∃ c ∈ calls,
          c.isBuiltin = true ∧ c.calleeName ∉ api
          ∧ e = ⟨c.calleeName, c.location⟩)
    ∧ ((validateContext api calls).2 = true ↔
        ∀ c ∈ calls, c.isBuiltin = true → c.calleeName ∈ api) := by
  refine ⟨?_, ?_, ?_⟩
  · intro c hc hb ha
    simp only [validateContext, validateContextErrors_eq, List.mem_map]
    exact ⟨c, List.mem_filter.mpr ⟨hc, by simp [hb, ha]⟩, rfl⟩
  · intro e he
    simp only [validateContext, validateContextErrors_eq, List.mem_map] at he
    obtain ⟨c, hc, rfl⟩ := he
    have hf := List.mem_filter.mp hc
    have hf2 := hf.2
    simp only [Bool.and_eq_true, Bool.not_eq_true'] at hf2
    refine ⟨c, hf.1, hf2.1, ?_, rfl⟩
    simpa using hf2.2
  · simp only [validateContext, validateContextErrors_eq]
    constructor
    · intro h0 c hc hb
      have hnil : (calls.filter
          (fun c => c.isBuiltin && !(api.contains c.calleeName))) = [] := by
        have h0' : ((calls.filter
            (fun c => c.isBuiltin && !(api.contains c.calleeName))).map
            (fun c => (⟨c.calleeName, c.location⟩ : ValidationError))).length = 0 :=
          of_decide_eq_true h0
        simp only [List.length_map] at h0'
        exact List.eq_nil_of_length_eq_zero h0'
      rw [List.filter_eq_nil_iff] at hnil
      have hc' := hnil c hc
      simp only [hb, Bool.true_and, Bool.not_eq_true, Bool.not_eq_false] at hc'
      simpa using hc'
    · intro hall
      have hnil : (calls.filter
          (fun c => c.isBuiltin && !(api.contains c.calleeName))) = [] := by
        rw [List.filter_eq_nil_iff]
        intro c hc
        by_cases hb : c.isBuiltin = true
        · simp [hb, hall c hc hb]
        · simp only [Bool.not_eq_true] at hb
          simp [hb]
      rw [hnil]
      rfl

/-- C3 witness: with the allow-list `["listen"]`, the builtin call to
`echo` is reported at its location while the allowed builtin call and the
user-defined handler call are not reported; validation fails. -/
theorem validateContext_reports_witness :
    (⟨"echo", "loc2"⟩ : ValidationError)
      ∈ (validateContext ["listen"]
          [⟨"listen", true, "loc1"⟩, ⟨"echo", true, "loc2"⟩,
           ⟨"sub", false, "loc3"⟩]).1 := by
  exact (validateContext_reports ["listen"]
      [⟨"listen", true, "loc1"⟩, ⟨"echo", true, "loc2"⟩,
       ⟨"sub", false, "loc3"⟩]).1
    ⟨"echo", true, "loc2"⟩ (by decide) rfl (by decide)

/-- C4: `Runtime::verify` (the body of `verifyNativeCalls`) returns `true`
iff, for every `CALL`/`HANDLER`-call instruction in the program whose
callee signature resolves against the registry, the resolved native's
verifier accepts the call; equivalently, it returns `false` iff some
resolving call's verifier rejects. -/
theorem Runtime_verify_iff (rt : Runtime) (handlers : List IRHandler) :
    rt.verifyNativeCalls handlers = true ↔
      ∀ h ∈ handlers, ∀ bb ∈ h.blocks, ∀ i ∈ bb.instrs, ∀ sig nc,
        i.calleeSignature = some sig → rt.find sig = some nc →
          nc.verify i = true := by
  simp only [Runtime.verifyNativeCalls, Runtime.verify,
    Runtime.collectVerifiableCalls, List.all_eq_true, List.mem_flatMap,
    List.mem_filterMap]
  constructor
  · intro hv h hh bb hbb i hi sig nc hsig hfind
    exact hv (i, nc) ⟨h, hh, bb, hbb, i, hi, by simp [hsig, hfind]⟩
  · rintro hall ⟨i, nc⟩ ⟨h, hh, bb, hbb, j, hj, hmk⟩
    rcases hcs : j.calleeSignature with _ | sig
    · simp [hcs] at hmk
    · rcases hf : rt.find sig with _ | nc'
      · simp [hcs, hf] at hmk
      · have h2 : (j, nc') = (i, nc) := by
          simpa [hcs, hf] using hmk
        obtain ⟨rfl, rfl⟩ := Prod.ext_iff.mp h2
        exact hall h hh bb hbb j hj sig nc' hcs hf

/-- `reportEq` holds iff both components of `difference` are empty:
set-equality of reports is exactly an empty diagnostics diff. -/
theorem reportEq_iff_difference_empty (a b : Report) :
    reportEq a b = true ↔
      (difference a b).1 = [] ∧ (difference a b).2 = [] := by
  simp only [reportEq, difference, Bool.and_eq_true, List.all_eq_true,
    List.filter_eq_nil_iff, List.elem_eq_mem, List.contains_eq_any_beq,
    List.any_eq_true, beq_iff_eq, Bool.not_eq_true, Bool.not_eq_false,
    decide_eq_true_eq]
  constructor
  · rintro ⟨h1, h2⟩
    refine ⟨fun m hm => ?_, fun m hm => ?_⟩
    · simp [h2 m hm]
    · simp [h1 m hm]
  · rintro ⟨h1, h2⟩
    refine ⟨fun m hm => ?_, fun m hm => ?_⟩
    · have h3 := h2 m hm
      simp at h3
      exact h3
    · have h3 := h1 m hm
      simp at h3
      exact h3

/-- C9: given that the expected-diagnostics section parses, `testFile`
succeeds iff `difference(actual, expected)` has an empty missing set and an
empty superfluous set (i.e. the compiled diagnostics equal the expected
ones as a set), and its error output lists exactly every missing and every
superfluous message. -/
theorem testFile_success_iff (actual expected : Report) :
    ((testFile actual (some expected)).1 = true ↔
       (difference actual expected).1 = []
         ∧ (difference actual expected).2 = [])
    ∧ (testFile actual (some expected)).2 =
        (difference actual expected).1.map TestError.missing
          ++ (difference actual expected).2.map TestError.superfluous := by
  constructor
  · rw [← reportEq_iff_difference_empty]
    simp [testFile]
  · rfl

/-- C10: `registerHandler` returns a callback marked as a handler whose
signature's return type is `Boolean`; `registerFunction` returns one marked
as a function with exactly the supplied return type; consequently, in a
registry built from any sequence of such registrations, every callback
marked as a handler has a Boolean-returning signature. -/
theorem registry_handler_callbacks_boolean (rt : Runtime) (name : String)
    (t : FlowType) (ops : List RegOp) :
    ((rt.registerHandler name).2.isHandler = true
      ∧ (rt.registerHandler name).2.signature.returnType = .Boolean)
    ∧ ((rt.registerFunction name t).2.isHandler = false
      ∧ (rt.registerFunction name t).2.signature.returnType = t)
    ∧ (∀ cb ∈ (applyRegOps ⟨[]⟩ ops).builtins,
        cb.isHandler = true → cb.signature.returnType = .Boolean) := by
  refine ⟨⟨rfl, rfl⟩, ⟨rfl, rfl⟩, ?_⟩
  have key : ∀ (ops : List RegOp) (rt0 : Runtime),
      (∀ cb ∈ rt0.builtins, cb.isHandler = true →
        cb.signature.returnType = .Boolean) →
      ∀ cb ∈ (applyRegOps rt0 ops).builtins, cb.isHandler = true →
        cb.signature.returnType = .Boolean := by
    intro ops
    induction ops with
    | nil => intro rt0 h0; exact h0
    | cons op rest ih =>
      intro rt0 h0
      cases op with
      | handler n =>
        refine ih _ ?_
        intro cb hcb hh
        simp only [Runtime.registerHandler, List.mem_append,
          List.mem_singleton] at hcb
        rcases hcb with hcb | rfl
        · exact h0 cb hcb hh
        · rfl
      | function n ty =>
        refine ih _ ?_
        intro cb hcb hh
        simp only [Runtime.registerFunction, List.mem_append,
          List.mem_singleton] at hcb
        rcases hcb with hcb | rfl
        · exact h0 cb hcb hh
        · simp [NativeCallback.mkFunction] at hh
  exact key ops ⟨[]⟩ (by intro cb hcb; simp at hcb)

/-- C2: after `TargetCodeGenerator::generate(IRHandler*)` finishes a
handler (emission phase captured by the hypothesis), the stored handler
code is the emitted code with every recorded jump site back-patched, and:
every recorded `JMP`/`JZ`/`JN` site's instruction equals
`makeInstruction(opcode, target_pc)` where `target_pc` is the recorded
entry pc of its target block; and every match hint's `MatchDef` ends up
with each per-case pc equal to the entry pc of the corresponding case
target block and, when an else block exists, its else pc equal to the else
block's entry pc. -/
theorem generateHandler_backpatches (h : IRHandler) (cp : ConstantPool)
    (st : GenState) (entries : List (Nat × Nat))
    (hrun : GenState.emitBlocks (h.blocks.map BasicBlock.name) h.blocks
        (GenState.initial (cp.makeHandler h.name).1 h.name
          (cp.makeHandler h.name).2) []
      = some (st, entries)) :
    generateHandler h cp = some
      ((patchMatches entries st.matchHints st.pool).setHandlerCode
        (cp.makeHandler h.name).1
        (patchJumpList entries st.uncondJumps
          (patchJumpList entries st.condJumps st.code)))
    ∧ (∀ s ∈ st.condJumps ++ st.uncondJumps,
        (patchJumpList entries st.uncondJumps
            (patchJumpList entries st.condJumps st.code))[s.pc]? =
          some (makeInstruction s.opcode (entryLookup entries s.target) 0 0))
    ∧ (∀ mh ∈ st.matchHints, ∃ d,
        st.pool.matchDefs[mh.matchId]? = some d
        ∧ (patchMatches entries st.matchHints st.pool).matchDefs[mh.matchId]?
            = some (patchedDef entries d mh)
        ∧ (patchedDef entries d mh).cases.map MatchCaseDef.pc
            = mh.caseBlocks.map (entryLookup entries)
        ∧ (∀ b, mh.elseB = some b →
            (patchedDef entries d mh).elsePC = entryLookup entries b)) := by
  have hinv0 : GenInv (GenState.initial (cp.makeHandler h.name).1 h.name
      (cp.makeHandler h.name).2) := by
    refine ⟨?_, ?_, ?_, ?_⟩ <;> simp [GenState.initial]
  obtain ⟨hmono, hinvf, _⟩ := emitBlocks_step hrun
  obtain ⟨hb, hpw, hhw, hhp⟩ := hinvf hinv0
  refine ⟨?_, ?_, ?_⟩
  · show (GenState.emitBlocks (h.blocks.map BasicBlock.name) h.blocks
        (GenState.initial (cp.makeHandler h.name).1 h.name
          (cp.makeHandler h.name).2) []).bind
      (fun r => some ((patchMatches r.2 r.1.matchHints r.1.pool).setHandlerCode
        (cp.makeHandler h.name).1
        (patchJumpList r.2 r.1.uncondJumps
          (patchJumpList r.2 r.1.condJumps r.1.code)))) = _
    rw [hrun]
    rfl
  · intro s hs
    rcases List.mem_append.mp hs with hcnd | huncd
    · have hcross : ∀ u ∈ st.uncondJumps, u.pc ≠ s.pc := by
        have hx := (List.pairwise_append.mp hpw).2.2
        intro u hu
        exact fun hEq => (hx s hcnd u hu) hEq.symm
      rw [patchJumpList_getElem_ne entries hcross]
      refine patchJumpList_getElem_mem entries ?_
        (List.pairwise_append.mp hpw).1 s hcnd
      intro x hx
      exact hb x (List.mem_append_left _ hx)
    · refine patchJumpList_getElem_mem entries ?_
        (List.pairwise_append.mp hpw).2.1 s huncd
      intro x hx
      rw [patchJumpList_length]
      exact hb x (List.mem_append_right _ hx)
  · intro mh hmh
    obtain ⟨d, hd, hdp⟩ := patchMatches_spec entries
      (fun x hx => (hhw x hx).imp fun dx hdx => hdx.1) hhp mh hmh
    obtain ⟨d0, hd0, hlen⟩ := hhw mh hmh
    have hdd : d0 = d := Option.some.inj (hd0.symm.trans hd)
    subst hdd
    refine ⟨d0, hd0, hdp, ?_, ?_⟩
    · show (d0.cases.zipWith
          (fun c b => {c with pc := entryLookup entries b}) mh.caseBlocks).map
          MatchCaseDef.pc = _
      exact zipWith_setPC_map_pc entries d0.cases mh.caseBlocks hlen
    · intro b hbeq
      simp [patchedDef, hbeq]

/-- C6: lowering a native-function call pushes one operand per argument,
emits exactly one `CALL` whose third operand flags a result exactly when
the callee's return type is non-void, pops the `argc` operands, pushes the
result exactly when the return type is non-void, and appends a `DISCARD`
immediately after the `CALL` exactly when a result was pushed but the call
is unused — leaving the symbolic stack depth unchanged across the whole
sequence in that case (and in general changing it by one only for a used
result). -/
theorem visitCall_stack_discipline (order : List Nat) (cur : Nat)
    (self : Value) (callee : Signature) (args : List Value) (used : Bool)
    (st st1 : GenState)
    (h : GenState.visitInstr order cur (.call self callee args used) st
      = some st1) :
    st1.stack.length = st.stack.length
        + (if callee.returnType ≠ FlowType.Void ∧ used = true then 1 else 0)
    ∧ ∃ loads fid,
        loads.length = args.length
        ∧ st1.code = st.code ++ loads
            ++ [makeInstruction .CALL fid args.length
                (if callee.returnType ≠ FlowType.Void then 1 else 0)]
            ++ (if callee.returnType ≠ FlowType.Void ∧ used = false
                then [makeInstruction .DISCARD 1 0 0] else []) := by
  rw [GenState.visitInstr] at h
  simp only [Option.bind_eq_bind, Option.bind_eq_some] at h
  obtain ⟨s1, h1, s3, h3, h⟩ := h
  obtain ⟨⟨loads, hcode1, hlen1⟩, hstk1, _, _, _, _⟩ := emitLoadAll_spec h1
  have hs3stack : s3.stack = st.stack := by
    unfold GenState.popIf at h3
    split at h3
    · obtain ⟨hs, _⟩ := pop_stack h3
      rw [hs]
      show (s1.stack.take (s1.stack.length - args.length)) = st.stack
      rw [hstk1]
      have hlen2 : (st.stack ++ args).length - args.length
          = st.stack.length := by simp
      rw [hlen2]
      exact List.take_left _ _
    · obtain rfl := Option.some.inj h3
      show s1.stack = st.stack
      rw [hstk1]
      rename_i hargs
      simp only [ne_eq, Decidable.not_not] at hargs
      rw [List.length_eq_zero] at hargs
      simp [hargs]
  have hs3code : s3.code = st.code ++ loads
      ++ [makeInstruction .CALL (s1.pool.makeNativeFunction callee).1
          args.length
          (if callee.returnType ≠ FlowType.Void then 1 else 0)] := by
    obtain ⟨hc, _, _, _, _, _, _⟩ := popIf_spec h3
    rw [hc]
    show s1.code ++ [_] = _
    rw [hcode1]
  by_cases hrv : callee.returnType ≠ FlowType.Void
  · rw [if_pos hrv] at h
    by_cases hu : used = true
    · rw [if_pos hu] at h
      obtain rfl := Option.some.inj h
      constructor
      · have h1x : (GenState.push self s3).stack = s3.stack ++ [self] := rfl
        rw [h1x, hs3stack]
        simp [hrv, hu]
      · refine ⟨loads, (s1.pool.makeNativeFunction callee).1, hlen1, ?_⟩
        have h2x : (GenState.push self s3).code = s3.code := rfl
        rw [h2x, hs3code]
        simp [hrv, hu]
    · rw [if_neg hu] at h
      rw [Bool.not_eq_true] at hu
      obtain ⟨hs, _⟩ := pop_stack h
      obtain ⟨hc, _, _, _, _, _, _⟩ := pop_spec h
      constructor
      · rw [hs]
        have h1x : (GenState.emitInstr (makeInstruction .DISCARD 1 0 0)
            (GenState.push self s3)).stack = s3.stack ++ [self] := rfl
        rw [h1x, hs3stack]
        have h2x : (st.stack ++ [self]).length - 1 = st.stack.length := by simp
        rw [h2x, List.take_left]
        simp [hrv, hu]
      · refine ⟨loads, (s1.pool.makeNativeFunction callee).1, hlen1, ?_⟩
        rw [hc]
        have h3x : (GenState.emitInstr (makeInstruction .DISCARD 1 0 0)
            (GenState.push self s3)).code
            = s3.code ++ [makeInstruction .DISCARD 1 0 0] := rfl
        rw [h3x, hs3code]
        simp [hrv, hu]
  · rw [if_neg hrv] at h
    obtain rfl := Option.some.inj h
    constructor
    · rw [hs3stack]
      simp [hrv]
    · refine ⟨loads, (s1.pool.makeNativeFunction callee).1, hlen1, ?_⟩
      rw [hs3code]
      simp [hrv]

/-- C8: an unconditional `Br` whose target block directly follows the
current block emits nothing at all; any other `Br` emits exactly one `JMP`
placeholder and records exactly one jump site for it; and the emission loop
preserves the IR's basic-block order — the recorded entry points name the
blocks in IR order with nondecreasing entry pcs. -/
theorem br_lowering_and_block_order (order : List Nat) (cur target : Nat)
    (st : GenState) (bbs : List BasicBlock) (st0 st1 : GenState)
    (entries : List (Nat × Nat))
    (hrun : GenState.emitBlocks order bbs st0 [] = some (st1, entries)) :
    (isAfter order cur target = true →
      GenState.visitInstr order cur (.br target) st = some st)
    ∧ (isAfter order cur target = false →
      GenState.visitInstr order cur (.br target) st =
        some {st with
          code := st.code ++ [makeInstruction .JMP 0 0 0],
          uncondJumps := st.uncondJumps
            ++ [⟨target, st.code.length, .JMP⟩]})
    ∧ entries.map Prod.fst = bbs.map BasicBlock.name
    ∧ List.Chain' (· ≤ ·) (entries.map Prod.snd) := by
  obtain ⟨_, _, newE, hE, hnames, _, hchain⟩ := emitBlocks_step hrun
  simp only [List.nil_append] at hE
  subst hE
  refine ⟨?_, ?_, hnames, hchain⟩
  · intro hA
    rw [GenState.visitInstr]
    simp [hA]
  · intro hA
    rw [GenState.visitInstr]
    simp only [hA, Bool.false_eq_true, if_false]
    rfl

/-- A three-block handler exercising a conditional branch, a backward
unconditional branch and a return. -/
def exHandler : IRHandler :=
  ⟨"main", [⟨0, [.condBr (.constBool true) 2 1]⟩, ⟨1, [.br 0]⟩, ⟨2, [.ret 1]⟩]⟩

/-- The generator state after emitting `exHandler`'s blocks (before
back-patching): code `ILOAD 1; JN ?; JMP ?; EXIT 1`, one conditional site
(`JN` at pc 1 targeting block 2) and one unconditional site (`JMP` at pc 2
targeting block 0). -/
def exEmitState : GenState :=
  ⟨0, "main",
   [makeInstruction .ILOAD 1 0 0, makeInstruction .JN 0 0 0,
    makeInstruction .JMP 0 0 0, makeInstruction .EXIT 1 0 0],
   [], [⟨2, 1, .JN⟩], [⟨0, 2, .JMP⟩], [],
   (ConstantPool.empty.makeHandler "main").2⟩

/-- C2 witness: on `exHandler`, the patched `JN` instruction at pc 1 holds
block 2's recorded entry pc, 3. -/
theorem generateHandler_backpatches_witness :
    (patchJumpList [(0, 0), (1, 2), (2, 3)] exEmitState.uncondJumps
        (patchJumpList [(0, 0), (1, 2), (2, 3)] exEmitState.condJumps
          exEmitState.code))[1]? =
      some (makeInstruction .JN 3 0 0) :=
  (generateHandler_backpatches exHandler ConstantPool.empty exEmitState
      [(0, 0), (1, 2), (2, 3)] rfl).2.1
    ⟨2, 1, .JN⟩ (by decide)

/-- The callee `f : (Number) -> Number`. -/
def exCallee : Signature := ⟨"f", .Number, [.Number]⟩

/-- The generator state after lowering an unused call `f(1)` from the
fresh state: `ILOAD 1; CALL 0, 1, 1; DISCARD 1`, empty symbolic stack. -/
def exCallResult : GenState :=
  ⟨0, "main",
   [makeInstruction .ILOAD 1 0 0, makeInstruction .CALL 0 1 1,
    makeInstruction .DISCARD 1 0 0],
   [], [], [], [],
   {ConstantPool.empty with nativeFunctions := [⟨"f", .Number, [.Number]⟩]}⟩

/-- C6 witness: the unused call `f(1)` from the fresh state loads one
argument, emits `CALL` with the result flag set, appends `DISCARD`, and
leaves the stack depth unchanged. -/
theorem visitCall_stack_discipline_witness :
    exCallResult.stack.length = exState.stack.length
      + (if exCallee.returnType ≠ FlowType.Void ∧ false = true then 1 else 0)
    ∧ ∃ loads fid,
        loads.length = ([Value.constInt 1] : List Value).length
        ∧ exCallResult.code = exState.code ++ loads
            ++ [makeInstruction .CALL fid
                ([Value.constInt 1] : List Value).length
                (if exCallee.returnType ≠ FlowType.Void then 1 else 0)]
            ++ (if exCallee.returnType ≠ FlowType.Void ∧ false = false
                then [makeInstruction .DISCARD 1 0 0] else []) :=
  visitCall_stack_discipline [] 0 (Value.ssa 5 .Number) exCallee
    [Value.constInt 1] false exState exCallResult rfl

/-- C8 witness: with block order `[0, 1]`, a `Br` from block 0 to the
directly following block 1 emits nothing, while a `Br` from block 1 back to
block 0 emits exactly one `JMP` placeholder and records its site. -/
theorem br_lowering_witness :
    GenState.visitInstr [0, 1] 0 (.br 1) exState = some exState
    ∧ GenState.visitInstr [0, 1] 1 (.br 0) exState
        = some {exState with
            code := exState.code ++ [makeInstruction .JMP 0 0 0],
            uncondJumps := exState.uncondJumps
              ++ [⟨0, exState.code.length, .JMP⟩]} :=
  ⟨(br_lowering_and_block_order [0, 1] 0 1 exState [] exState exState [] rfl).1
     rfl,
   (br_lowering_and_block_order [0, 1] 1 0 exState [] exState exState [] rfl).2.1
     rfl⟩

/-- C10 witness: in the registry built by registering the handler `h` and
the function `f : Number`, the handler callback's return type is Boolean. -/
theorem registry_handler_callbacks_boolean_witness :
    (NativeCallback.mkHandler "h").signature.returnType = .Boolean := by
  refine (registry_handler_callbacks_boolean ⟨[]⟩ "h" .Number
      [.handler "h", .function "f" .Number]).2.2
    (NativeCallback.mkHandler "h") ?_ rfl
  simp [applyRegOps, Runtime.registerHandler, Runtime.registerFunction]

end X0
